import Mathlib

/-!
# technicolor: a shallow embedding of `src/technicolor/technicolor.cc`

The C++ program wraps a child command and rewrites every completed line of its
stdout and stderr with terminal colour escapes chosen by an ordered list of
regular-expression rules.

Conventions of the embedding

* A `std::string` is the list of its chars (`Str`).
* A C `int` is an `Int`; the only arithmetic on them (`fg + 30`, `bg + 40`)
  is checked against `INT_MAX`, signed overflow being undefined.
* A procedure that writes to a `FILE*` or to `cerr` and may stop at a failed
  `assert` returns a `Res`: the value returned together with the bytes
  written, or the bytes written before the abort, or undefined behaviour.
* `boost::regex` is a library outside the repository; what the program uses
  of it is the parameter `Boost`.  The meaning of patterns is spelled out for
  a fragment of its Perl syntax (literal chars, `.`, `*`, marked
  sub-expressions), and the library `fragment_boost` is computed from it.
* `string::npos` is `none`; strings are shorter than `2^64 - 1` chars.
* The loop of `main` is run over a finite list of rounds; each round gives what
  its two calls of `read_bytes_available` meet (`Poll`), and the outcome `Run`
  keeps the bytes written to stdout and to stderr apart.
-/

namespace Technicolor

/-- Contents of a `std::string`. -/
abbrev Str := List Char

/-- Outcome of a procedure writing to one stream. -/
inductive Res (α : Type) where
  /-- the procedure returned `a` after writing `out` -/
  | ret (a : α) (out : Str)
  /-- an `assert` failed (or an exception escaped) after `out` was handed to
  stdio; bytes stdio still holds at that point may never reach the stream -/
  | abort (out : Str)
  /-- undefined behaviour was reached -/
  | undefined
  deriving DecidableEq, Repr

/-- Sequencing: the bytes of the first procedure precede those of the second. -/
def Res.bind {α β : Type} (r : Res α) (k : α → Res β) : Res β :=
  match r with
  | .ret a out =>
    match k a with
    | .ret b out2 => .ret b (out ++ out2)
    | .abort out2 => .abort (out ++ out2)
    | .undefined => .undefined
  | .abort out => .abort out
  | .undefined => .undefined

instance : Monad Res where
  pure a := .ret a []
  bind := Res.bind

/-! ## terminal color constants (lines 37-52) -/

def RESET : Int := 0
def BRIGHT : Int := 1
def DIM : Int := 2
def UNDERLINE : Int := 3
def BLINK : Int := 4
def REVERSE : Int := 7
def HIDDEN : Int := 8

def BLACK : Int := 0
def RED : Int := 1
def GREEN : Int := 2
def YELLOW : Int := 3
def BLUE : Int := 4
def MAGENTA : Int := 5
def CYAN : Int := 6
def WHITE : Int := 7

/-- Largest value of a 32-bit `int`. -/
def INT_MAX : Int := 2147483647

/-- The escape character `0x1B`. -/
def ESC : Char := Char.ofNat 27

/-! ## data types (lines 105-123) -/

/-- A `color_spec`; the value `-1` in a field means "unspecified". -/
structure color_spec where
  attr : Int
  foreground : Int
  background : Int
  deriving DecidableEq, Repr

/-- A `line_spec`; `regexp` is the pattern text the `boost::regex` was built from. -/
structure line_spec where
  regexp : Str
  color_list : List color_spec
  deriving DecidableEq, Repr

structure technicolor_config where
  stdout_props : color_spec
  stderr_props : color_spec
  spec_list : List line_spec
  deriving DecidableEq, Repr

/-- What the program uses of `boost::regex`.  `compiles p` says that the
constructor `boost::regex(p)` returns (it throws on a malformed pattern);
`regex_match p line` is `boost::regex_match(line, what, regex(p))`: `none` when
the pattern does not match the whole of `line`, otherwise `what[1]`, `what[2]`,
... , one entry per marked sub-expression of the pattern, so that
`what.size() - 1` is the length of the list. -/
structure Boost where
  compiles : Str → Bool
  regex_match : Str → Str → Option (List Str)

/-! ## stdio -/

/-- The chars `s.c_str()` shows to a C function: those before the first NUL. -/
def c_str (s : Str) : Str :=
  s.takeWhile (fun c => c ≠ Char.ofNat 0)

/-- What `fprintf(f, fmt)` writes when no argument follows the format: ordinary
chars are copied, `%%` writes one `%`, and any other conversion has no argument
to convert, which is undefined (`none`). -/
def printf_expand : Str → Option Str
  | [] => some []
  | c :: rest =>
    if c = '%' then
      match rest with
      | [] => none
      | d :: rest2 => if d = '%' then (printf_expand rest2).map (fun o => '%' :: o) else none
    else (printf_expand rest).map (fun o => c :: o)

/-- The call `fprintf(f, fmt)` with no argument after the format. -/
def fprintf (fmt : Str) : Res Unit :=
  match printf_expand fmt with
  | some out => .ret () out
  | none => .undefined

/-- What a `%d` conversion writes. -/
def format_d (i : Int) : Str :=
  match i with
  | Int.ofNat n => Nat.toDigits 10 n
  | Int.negSucc n => '-' :: Nat.toDigits 10 (n + 1)

/-! ## textcolor, textcolor_reset, textcolor_merge (lines 573-614) -/

/-- The locals `attr`, `fg`, `bg` of `textcolor` (lines 576-578): each field of
`color`, or the field of `default_color` where `color` has `-1`. -/
def textcolor_resolve (default_color color : color_spec) : color_spec :=
  { attr := if color.attr = -1 then default_color.attr else color.attr,
    foreground := if color.foreground = -1 then default_color.foreground else color.foreground,
    background := if color.background = -1 then default_color.background else color.background }

/-- The string `sprintf` builds from `"%c[%d;%d;%dm"` (line 584). -/
def textcolor_command (attr fg bg : Int) : Str :=
  [ESC, '['] ++ format_d attr ++ [';'] ++ format_d (fg + 30) ++ [';'] ++ format_d (bg + 40) ++ ['m']

/-- The procedure `textcolor(f, default_color, color)`: resolve, assert that the
three values are set, format the command into `char command[13]` and print it
(as a format string). -/
def textcolor (default_color color : color_spec) : Res Unit :=
  let r := textcolor_resolve default_color color
  if r.attr = -1 then .abort []
  else if r.foreground = -1 then .abort []
  else if r.background = -1 then .abort []
  else if INT_MAX < r.foreground + 30 ∨ INT_MAX < r.background + 40 then .undefined
  else
    let command := textcolor_command r.attr r.foreground r.background
    if 13 < command.length + 1 then .undefined
    else fprintf command

/-- The procedure `textcolor_reset(f)`: `fprintf(f, "%c[0m", 0x1B)`. -/
def textcolor_reset : Res Unit :=
  .ret () [ESC, '[', '0', 'm']

/-- The procedure `textcolor_merge(cs1, &cs2)`; the result is the new `*cs2`. -/
def textcolor_merge (cs1 cs2 : color_spec) : color_spec :=
  let cs2 := if cs1.attr ≠ -1 then { cs2 with attr := cs1.attr } else cs2
  let cs2 := if cs1.foreground ≠ -1 then { cs2 with foreground := cs1.foreground } else cs2
  let cs2 := if cs1.background ≠ -1 then { cs2 with background := cs1.background } else cs2
  cs2

/-! ## write_colored_line (lines 493-545) -/

/-- The `FILE*` values the program writes lines to. -/
inductive File where
  | stdout
  | stderr
  deriving DecidableEq, Repr

/-- The function `match_covers_line` (lines 539-545), whose body is
`// TODO: actually implement this.` followed by `return true;`. -/
def match_covers_line (_line : Str) (_color_list : List color_spec) (_what : List Str) : Bool :=
  true

/-- The loop of lines 515-519, one round per entry of `color_list`; `what` holds
`what[i+1]`, `what[i+2]`, ... (a sub-match that does not exist reads as the
empty string). -/
def write_captures (default_color_spec : color_spec) : List color_spec → List Str → Res Unit
  | [], _ => pure ()
  | color :: color_list, what => do
    textcolor default_color_spec color
    fprintf (c_str (what.headD []))
    textcolor_reset
    write_captures default_color_spec color_list what.tail

/-- The loop over `config.spec_list` (lines 501-526) followed by the code after
it (lines 528-532). -/
def write_colored_line_loop (boost : Boost) (default_color_spec : color_spec) (line : Str) :
    List line_spec → Res Unit
  | [] => do
    textcolor default_color_spec default_color_spec
    fprintf (c_str line)
    fprintf ['\n']
    textcolor_reset
  | spec :: rest =>
    match boost.regex_match spec.regexp line with
    | some what =>
      if match_covers_line line spec.color_list what then
        if what.length = spec.color_list.length then do
          write_captures default_color_spec spec.color_list what
          fprintf ['\n']
        else .abort []
      else write_colored_line_loop boost default_color_spec line rest
    | none => write_colored_line_loop boost default_color_spec line rest

/-- The procedure `write_colored_line(config, line, output_file)`. -/
def write_colored_line (boost : Boost) (config : technicolor_config) (line : Str)
    (output_file : File) : Res Unit :=
  let default_color_spec :=
    if output_file = File.stderr then config.stderr_props else config.stdout_props
  write_colored_line_loop boost default_color_spec line config.spec_list

/-! ## flush_complete_lines (lines 470-488) -/

/-- Index of the first char satisfying `p`. -/
def find_if (p : Char → Bool) : Str → Option Nat
  | [] => none
  | c :: cs => if p c then some 0 else (find_if p cs).map (fun i => i + 1)

/-- The call `str.find(c)`; `none` is `string::npos`. -/
def find (str : Str) (c : Char) : Option Nat :=
  find_if (fun x => x = c) str

/-- The call `str.substr(pos, n)` for `pos ≤ str.size()`. -/
def substr (str : Str) (pos n : Nat) : Str :=
  (str.drop pos).take n

/-- The function `flush_complete_lines(config, buffer, output_file)`: the value
returned and the new contents of `buffer`, with what was written to
`output_file`. -/
def flush_complete_lines (boost : Boost) (config : technicolor_config) (buffer : Str)
    (output_file : File) : Res (Bool × Str) :=
  if buffer.length < 1 then pure (false, buffer)
  else
    match find buffer '\n' with
    | none => pure (false, buffer)
    | some i =>
      let line := substr buffer 0 i
      let buffer := substr buffer (i + 1) buffer.length
      do
        write_colored_line boost config line output_file
        pure (true, buffer)

/-! ## trim and tokenize (lines 620-653) -/

/-- The call `str.find_first_of(delimiters, pos)`. -/
def find_first_of (str delimiters : Str) (pos : Option Nat) : Option Nat :=
  match pos with
  | none => none
  | some p => (find_if (fun x => decide (x ∈ delimiters)) (str.drop p)).map (fun i => i + p)

/-- The call `str.find_first_not_of(delimiters, pos)`. -/
def find_first_not_of (str delimiters : Str) (pos : Option Nat) : Option Nat :=
  match pos with
  | none => none
  | some p => (find_if (fun x => decide (x ∉ delimiters)) (str.drop p)).map (fun i => i + p)

/-- The call `str.find_last_not_of(delimiters)`. -/
def find_last_not_of (str delimiters : Str) : Option Nat :=
  (find_if (fun x => decide (x ∉ delimiters)) str.reverse).map (fun i => str.length - 1 - i)

/-- The set `" \t\n\r"` of `trim`. -/
def sepset : Str := [' ', '\t', '\n', '\r']

/-- The function `trim(str)`.  When `first` is found so is `last`; the last
branch spells out what `last - first + 1` would be for `last = npos`. -/
def trim (str : Str) : Str :=
  match find_first_not_of str sepset (some 0) with
  | none => []
  | some first =>
    match find_last_not_of str sepset with
    | some last => substr str first (last - first + 1)
    | none => if first = 0 then [] else str.drop first

/-- The `while` loop of `tokenize` (lines 643-652), at most `fuel` rounds.  With
`pos = npos` the count `pos - lastPos` reaches the end of the string.  `pos` is
always searched from `lastPos`, so `lastPos = npos` with `pos ≠ npos` does not
occur. -/
def tokenize_loop (str delimiters : Str) : Nat → Option Nat → Option Nat → List Str → List Str
  | 0, _, _, tokens => tokens
  | fuel + 1, lastPos, pos, tokens =>
    match lastPos, pos with
    | none, none => tokens
    | none, some _ => tokens
    | some lp, some p =>
      let tokens := tokens ++ [substr str lp (p - lp)]
      let lastPos := find_first_not_of str delimiters (some p)
      let pos := find_first_of str delimiters lastPos
      tokenize_loop str delimiters fuel lastPos pos tokens
    | some lp, none =>
      let tokens := tokens ++ [str.drop lp]
      let lastPos := find_first_not_of str delimiters none
      let pos := find_first_of str delimiters lastPos
      tokenize_loop str delimiters fuel lastPos pos tokens

/-- The procedure `tokenize(str, delimiters, &tokens)`; the result is `*tokens`.
Every round moves `lastPos` forward, so `str.length + 1` rounds are enough. -/
def tokenize (str delimiters : Str) : List Str :=
  let lastPos := find_first_not_of str delimiters (some 0)
  let pos := find_first_of str delimiters lastPos
  tokenize_loop str delimiters (str.length + 1) lastPos pos []

/-! ## the config parser (lines 54-86, 293-443) -/

/-- Writing `s` to `cerr`. -/
def cerr (s : Str) : Res Unit :=
  .ret () s

/-- The text `#S` of the macro `CASE_RETURN(X, S)` after `transform(..., ::tolower)`. -/
def lowered (name : String) : Str :=
  name.toList.map Char.toLower

/-- The function `lookup_attr_const(attr)`: the macro `CASE_RETURN(X, S)`
compares `X` with the lower-cased name of `S`. -/
def lookup_attr_const (attr : Str) : Res Int :=
  if attr = lowered "RESET" then pure RESET
  else if attr = lowered "BRIGHT" then pure BRIGHT
  else if attr = lowered "DIM" then pure DIM
  else if attr = lowered "UNDERLINE" then pure UNDERLINE
  else if attr = lowered "BLINK" then pure BLINK
  else if attr = lowered "REVERSE" then pure REVERSE
  else if attr = lowered "HIDDEN" then pure HIDDEN
  else do
    cerr ("technicolor config error: unknown value [".toList ++ attr ++ "].\n".toList)
    pure (-1)

/-- The function `lookup_color_const(color)`. -/
def lookup_color_const (color : Str) : Res Int :=
  if color = lowered "BLACK" then pure BLACK
  else if color = lowered "RED" then pure RED
  else if color = lowered "GREEN" then pure GREEN
  else if color = lowered "YELLOW" then pure YELLOW
  else if color = lowered "BLUE" then pure BLUE
  else if color = lowered "MAGENTA" then pure MAGENTA
  else if color = lowered "CYAN" then pure CYAN
  else if color = lowered "WHITE" then pure WHITE
  else do
    cerr ("technicolor config error: unknown value [".toList ++ color ++ "].\n".toList)
    pure (-1)

/-- The function `parse_color_spec_part(str, cs)`: `some cs` when it returns
`true` with that value in `*cs`, `none` when it returns `false` (no caller
reads `*cs` then). -/
def parse_color_spec_part (str : Str) : Res (Option color_spec) :=
  let tokens := tokenize str [':']
  if tokens.length ≠ 2 then do
    cerr ("technicolor config error: bad color spec part: [".toList ++ str ++ "]\n".toList)
    pure none
  else
    let cs : color_spec := { attr := -1, foreground := -1, background := -1 }
    let part_str := trim (tokens.getD 0 [])
    let value_str := trim (tokens.getD 1 [])
    if part_str = "attr".toList then do
      let v ← lookup_attr_const value_str
      pure (some { cs with attr := v })
    else if part_str = "bg".toList then do
      let v ← lookup_color_const value_str
      pure (some { cs with background := v })
    else if part_str = "fg".toList then do
      let v ← lookup_color_const value_str
      pure (some { cs with foreground := v })
    else do
      cerr ("technicolor config error: unknown color part [".toList ++ part_str ++ "]\n".toList)
      pure none

/-- The loop of `parse_color_spec` (lines 389-407) over the tokens of `str`. -/
def parse_color_spec_loop (str : Str) : List Str → color_spec → Res (Option color_spec)
  | [], cs => pure (some cs)
  | tok :: tokens, cs =>
    let part := trim tok
    if part.length < 1 then parse_color_spec_loop str tokens cs
    else do
      match (← parse_color_spec_part part) with
      | some temp_spec => parse_color_spec_loop str tokens (textcolor_merge temp_spec cs)
      | none =>
        cerr ("technicolor config error: failed to parse color spec [".toList ++ str ++ "]\n".toList)
        pure none

/-- The function `parse_color_spec(str, cs)`: `some cs` when it returns `true`
with that value in `*cs`, `none` when it returns `false`. -/
def parse_color_spec (str : Str) : Res (Option color_spec) :=
  parse_color_spec_loop str (tokenize str [' ']) { attr := -1, foreground := -1, background := -1 }

/-- The loop of `parse_line_spec` (lines 343-358): `some color_list` when it
runs to its end, `none` when `parse_color_spec` fails and the function returns. -/
def parse_line_spec_loop : List Str → List color_spec → Res (Option (List color_spec))
  | [], color_list => pure (some color_list)
  | tok :: tokens, color_list =>
    let t := trim tok
    if t.length < 1 then parse_line_spec_loop tokens color_list
    else do
      match (← parse_color_spec t) with
      | some cs => parse_line_spec_loop tokens (color_list ++ [cs])
      | none => pure none

/-- The procedure `parse_line_spec(line, config)`; the result is the new
`*config`, the bytes are those written to `cerr`.  An exception thrown by
`boost::regex(lhs)` is caught nowhere and ends the program. -/
def parse_line_spec (boost : Boost) (line : Str) (config : technicolor_config) :
    Res technicolor_config :=
  let side_tokens := tokenize line ['=']
  if side_tokens.length ≠ 2 then do
    cerr ("technicolor: Malformed config line:\n\t[".toList ++ line ++ "]\n".toList)
    pure config
  else
    let lhs := trim (side_tokens.getD 0 [])
    let rhs := trim (side_tokens.getD 1 [])
    if boost.compiles lhs = false then .abort []
    else do
      let tokens := tokenize rhs ['(', ')']
      match (← parse_line_spec_loop tokens []) with
      | none => pure config
      | some color_list =>
        if color_list.length < 1 then do
          cerr ("technicolor: Malformed config line (has no color specs):\n\t[".toList
            ++ line ++ "]\n".toList)
          pure config
        else
          let ls : line_spec := { regexp := lhs, color_list := color_list }
          let first := color_list.headD { attr := -1, foreground := -1, background := -1 }
          if lhs = "<stdout>".toList then
            pure { config with stdout_props := textcolor_merge first config.stdout_props }
          else if lhs = "<stderr>".toList then
            pure { config with stderr_props := textcolor_merge first config.stderr_props }
          else
            pure { config with spec_list := config.spec_list ++ [ls] }

/-- The procedure `parse_config_file(lines, config)`. -/
def parse_config_file (boost : Boost) : List Str → technicolor_config → Res technicolor_config
  | [], config => pure config
  | line :: lines, config =>
    if line.length < 1 ∨ line.head? = some '#' then parse_config_file boost lines config
    else do
      let config ← parse_line_spec boost line config
      parse_config_file boost lines config

/-- The procedure `fill_default_config(config)`; `spec_list` is the empty
vector of the freshly constructed `technicolor_config` of `main`. -/
def fill_default_config : technicolor_config :=
  { stdout_props := { attr := RESET, foreground := WHITE, background := BLACK },
    stderr_props := { attr := RESET, foreground := RED, background := BLACK },
    spec_list := [] }

/-! ## read_bytes_available (lines 448-465) -/

/-- The macro `MAX_LINEBUFFER_SIZE` (line 99). -/
def MAX_LINEBUFFER_SIZE : Nat := 32768

/-- What one call of `read_bytes_available` meets: `select` reports nothing to
read (`no_data`), or `read` returns a value below 1 (`end_of_data`), or `read`
stores `bytes` in `buf` and returns their number. -/
inductive Poll where
  | no_data
  | end_of_data
  | data (bytes : Str)
  deriving DecidableEq, Repr

/-- The function `read_bytes_available(input_fd, line_buffer)`: the value
returned and the new `line_buffer`.  After a read of `bytes_read` bytes the code
stores a NUL at `buf[bytes_read]`, which is past the end of
`char buf[MAX_LINEBUFFER_SIZE]` when `bytes_read` is `MAX_LINEBUFFER_SIZE`, and
appends `buf` to the buffer as a C string. -/
def read_bytes_available (poll : Poll) (line_buffer : Str) : Res (Bool × Str) :=
  match poll with
  | .no_data => pure (false, line_buffer)
  | .end_of_data => pure (true, line_buffer)
  | .data bytes =>
    if bytes.length < 1 then pure (true, line_buffer)
    else if MAX_LINEBUFFER_SIZE ≤ bytes.length then .undefined
    else pure (false, line_buffer ++ c_str bytes)

/-! ## the loop of main (lines 210-233) -/

/-- The statement `while (flush_complete_lines(config, buffer, output_file)) {;}`
(lines 220-221), at most `fuel` rounds; the result is the buffer it leaves. -/
def flush_all (boost : Boost) (config : technicolor_config) : Nat → Str → File → Res Str
  | 0, buffer, _ => pure buffer
  | fuel + 1, buffer, output_file => do
    let r ← flush_complete_lines boost config buffer output_file
    if r.1 then flush_all boost config fuel r.2 output_file else pure r.2

/-- Outcome of a procedure that writes to the two sinks stdout and stderr. -/
inductive Run (α : Type) where
  /-- the procedure returned `a`, `out` written to stdout and `err` to stderr -/
  | ret (a : α) (out err : Str)
  /-- an `assert` failed after `out` and `err` were written -/
  | abort (out err : Str)
  /-- undefined behaviour was reached -/
  | undefined
  deriving DecidableEq, Repr

/-- Sequencing on the two sinks. -/
def Run.bind {α β : Type} (r : Run α) (k : α → Run β) : Run β :=
  match r with
  | .ret a out err =>
    match k a with
    | .ret b out2 err2 => .ret b (out ++ out2) (err ++ err2)
    | .abort out2 err2 => .abort (out ++ out2) (err ++ err2)
    | .undefined => .undefined
  | .abort out err => .abort out err
  | .undefined => .undefined

instance : Monad Run where
  pure a := .ret a [] []
  bind := Run.bind

/-- A procedure that writes to `output_file` alone, run on the two sinks. -/
def Run.of {α : Type} (output_file : File) (r : Res α) : Run α :=
  match r with
  | .ret a out => if output_file = File.stderr then .ret a [] out else .ret a out []
  | .abort out => if output_file = File.stderr then .abort [] out else .abort out []
  | .undefined => .undefined

/-- How a run of the loop over finitely many rounds stands: the `break` of
line 229 was reached, or the loop is still going with these two buffers. -/
inductive Loop where
  | running (stdout_buffer stderr_buffer : Str)
  | done
  deriving DecidableEq, Repr

/-- The loop `while (true)` of `main` (lines 216-233), one round per entry of
the list, which gives what the two calls of `read_bytes_available` of the round
meet.  `stdout_closed` and `stderr_closed` are assigned at the top of every
round, before anything reads them, so nothing of them passes from one round to
the next; `usleep` has no effect on the data. -/
def main_loop (boost : Boost) (config : technicolor_config) :
    List (Poll × Poll) → Str → Str → Run Loop
  | [], stdout_buffer, stderr_buffer => pure (Loop.running stdout_buffer stderr_buffer)
  | polls :: rest, stdout_buffer, stderr_buffer => do
    let r1 ← Run.of File.stdout (read_bytes_available polls.1 stdout_buffer)
    let r2 ← Run.of File.stderr (read_bytes_available polls.2 stderr_buffer)
    let stdout_closed := r1.1
    let stderr_closed := r2.1
    let stdout_buffer ← Run.of File.stdout
      (flush_all boost config (r1.2.length + 1) r1.2 File.stdout)
    let stderr_buffer ← Run.of File.stderr
      (flush_all boost config (r2.2.length + 1) r2.2 File.stderr)
    if stdout_closed = true ∧ stderr_closed = true then do
      if stdout_buffer.length > 0 then Run.of File.stdout (fprintf (c_str stdout_buffer))
      else pure ()
      if stderr_buffer.length > 0 then Run.of File.stderr (fprintf (c_str stderr_buffer))
      else pure ()
      pure Loop.done
    else main_loop boost config rest stdout_buffer stderr_buffer

/-! ## predicates and expected bytes used in the statements -/

/-- Every field holds a constant of the tables of lines 37-52: an attribute in
`0..8`, a color in `0..7`. -/
@[reducible] def color_spec.concrete (cs : color_spec) : Prop :=
  (0 ≤ cs.attr ∧ cs.attr ≤ 8) ∧ (0 ≤ cs.foreground ∧ cs.foreground ≤ 7) ∧
    (0 ≤ cs.background ∧ cs.background ≤ 7)

/-- The text holds no `%` and no NUL, so `fprintf(f, text.c_str())` copies it. -/
@[reducible] def plain_text (text : Str) : Prop :=
  '%' ∉ text ∧ Char.ofNat 0 ∉ text

/-- The bytes of one colored segment in the order of lines 516-518: the escape
of `color` resolved against the default, the text, the reset. -/
def segment_bytes (default_color_spec color : color_spec) (text : Str) : Str :=
  textcolor_command (textcolor_resolve default_color_spec color).attr
      (textcolor_resolve default_color_spec color).foreground
      (textcolor_resolve default_color_spec color).background
    ++ text ++ [ESC, '[', '0', 'm']

/-- The segments of a rule, one per color and capture, in order. -/
def segments_bytes (default_color_spec : color_spec) : List color_spec → List Str → Str
  | color :: color_list, text :: what =>
    segment_bytes default_color_spec color text ++ segments_bytes default_color_spec color_list what
  | _, _ => []

/-- Every field holds `-1` or a constant of the tables of lines 37-52. -/
@[reducible] def color_spec.unset_or_of_tables (cs : color_spec) : Prop :=
  (cs.attr = -1 ∨ cs.attr ∈ [RESET, BRIGHT, DIM, UNDERLINE, BLINK, REVERSE, HIDDEN]) ∧
    (cs.foreground = -1 ∨ (0 ≤ cs.foreground ∧ cs.foreground ≤ 7)) ∧
    (cs.background = -1 ∨ (0 ≤ cs.background ∧ cs.background ≤ 7))

/-- Every field is set: the attribute is one of the seven attribute constants,
the colors are in `0..7`. -/
@[reducible] def color_spec.of_tables (cs : color_spec) : Prop :=
  cs.attr ∈ [RESET, BRIGHT, DIM, UNDERLINE, BLINK, REVERSE, HIDDEN] ∧
    (0 ≤ cs.foreground ∧ cs.foreground ≤ 7) ∧ (0 ≤ cs.background ∧ cs.background ≤ 7)

/-- The default color of a sink (lines 497-498). -/
def technicolor_config.default_of (config : technicolor_config) (output_file : File) :
    color_spec :=
  if output_file = File.stderr then config.stderr_props else config.stdout_props

/-- The complete lines of a text, in order, and the chars after its last newline. -/
def split_lines : Str → List Str × Str
  | [] => ([], [])
  | c :: cs =>
    if c = '\n' then ([] :: (split_lines cs).1, (split_lines cs).2)
    else
      match (split_lines cs).1 with
      | [] => ([], c :: (split_lines cs).2)
      | l :: ls => ((c :: l) :: ls, (split_lines cs).2)

/-- The lines handed to `write_colored_line` one after the other. -/
def colorize_lines (boost : Boost) (config : technicolor_config) (output_file : File) :
    List Str → Res Unit
  | [] => pure ()
  | line :: lines => do
    write_colored_line boost config line output_file
    colorize_lines boost config output_file lines

/-- The read reports the end of the data: `read_bytes_available` returns `true`. -/
def Poll.closes : Poll → Bool
  | .no_data => false
  | .end_of_data => true
  | .data bytes => decide (bytes.length < 1)

/-- The chars a read adds to the buffer. -/
def Poll.appended : Poll → Str
  | .data bytes => if bytes.length < 1 then [] else c_str bytes
  | _ => []

/-- The rounds the loop runs: those up to the first one in which both reads
report the end of the data, that one included. -/
def rounds_run : List (Poll × Poll) → List (Poll × Poll)
  | [] => []
  | polls :: rest =>
    if polls.1.closes = true ∧ polls.2.closes = true then [polls] else polls :: rounds_run rest

/-- The final write of a remainder (lines 226-227) when the loop is done. -/
def final_flush (loop : Loop) (buffer : Str) : Res Unit :=
  if loop = Loop.done ∧ buffer.length > 0 then fprintf (c_str buffer) else pure ()

/-- A part of a color spec that `parse_color_spec_part` refuses: it does not
split at `:` into two tokens, or its key is none of `attr`, `bg`, `fg`. -/
def bad_part (part : Str) : Prop :=
  (tokenize part [':']).length ≠ 2 ∨
    trim ((tokenize part [':']).getD 0 []) ∉ ["attr".toList, "bg".toList, "fg".toList]

/-- The right-hand side `rhs` of a config line holds a color spec with a
refused part. -/
def has_bad_part (rhs : Str) : Prop :=
  ∃ t ∈ tokenize rhs ['(', ')'], ∃ tok ∈ tokenize (trim t) [' '],
    1 ≤ (trim tok).length ∧ bad_part (trim tok)

/-- The text `lookup_attr_const` and `lookup_color_const` write to `cerr` for a
value they do not know. -/
def unknown_value_message (value : Str) : Str :=
  "technicolor config error: unknown value [".toList ++ value ++ "].\n".toList

/-- The two defaults have every field set from the tables, and the colors of
the rules have every field unset or from the tables. -/
def technicolor_config.well_formed (config : technicolor_config) : Prop :=
  config.stdout_props.of_tables ∧ config.stderr_props.of_tables ∧
    ∀ spec ∈ config.spec_list, ∀ c ∈ spec.color_list, c.unset_or_of_tables

/-- The text `parse_line_spec` writes to `cerr` for a line without two sides. -/
def malformed_line_message (line : Str) : Str :=
  "technicolor: Malformed config line:\n\t[".toList ++ line ++ "]\n".toList

/-- The text `parse_line_spec` writes to `cerr` for a line without color specs. -/
def no_color_specs_message (line : Str) : Str :=
  "technicolor: Malformed config line (has no color specs):\n\t[".toList ++ line ++ "]\n".toList

/-- The chars the rounds the loop runs add to the stdout buffer, in order. -/
def appended_to_stdout : List (Poll × Poll) → Str
  | [] => []
  | polls :: rest =>
    if polls.1.closes = true ∧ polls.2.closes = true then polls.1.appended
    else polls.1.appended ++ appended_to_stdout rest

/-- The chars the rounds the loop runs add to the stderr buffer, in order. -/
def appended_to_stderr : List (Poll × Poll) → Str
  | [] => []
  | polls :: rest =>
    if polls.1.closes = true ∧ polls.2.closes = true then polls.2.appended
    else polls.2.appended ++ appended_to_stderr rest

/-- What one sink receives when the text `text` has gone through a buffer: its
complete lines colorized in order, then, when the loop is done, the chars after
the last newline. -/
def sink_of_text (boost : Boost) (config : technicolor_config) (output_file : File)
    (loop : Loop) (text : Str) : Res Unit :=
  (colorize_lines boost config output_file (split_lines text).1).bind
    (fun _ => final_flush loop (split_lines text).2)

/-- A read without fault for the loop: its bytes leave room for the NUL that
line 458 stores after them, and hold no `%`. -/
def Poll.plain : Poll → Prop
  | .data bytes => bytes.length < MAX_LINEBUFFER_SIZE ∧ '%' ∉ bytes
  | _ => True

/-! ## a table of answers of boost::regex_match for the worked examples -/

/-- What `boost::regex_match` answers for the four patterns of the examples:
`ERROR: (.*)`, `(ERR)`, `(.*)` and `(a)(b)`; every other pattern is left
unmatched. -/
def sample_regex_match (pattern line : Str) : Option (List Str) :=
  if pattern = "ERROR: (.*)".toList then
    if line.take 7 = "ERROR: ".toList then some [line.drop 7] else none
  else if pattern = "(ERR)".toList then
    if line = "ERR".toList then some ["ERR".toList] else none
  else if pattern = "(.*)".toList then some [line]
  else if pattern = "(a)(b)".toList then
    if line = "ab".toList then some ["a".toList, "b".toList] else none
  else none

/-- The sample library: every pattern compiles. -/
def sample_boost : Boost :=
  { compiles := fun _ => true, regex_match := sample_regex_match }

/-! ## the meaning of patterns: a fragment of the Perl syntax of boost::regex

`boost::regex` reads a pattern in its Perl syntax, in which every char is a
literal except `. [ { } ( ) \ * + ? | ^ $`.  The fragment taken here has the
literal chars, `.` (any char), an atom followed by `*` (the atom any number of
times) and marked sub-expressions `( ... )` of such pieces, not nested and not
empty.  The meaning of a pattern (`items_denote`) is the set of the strings it
matches from their first to their last char; `boost::regex_match` is the test
for the whole of a string, `boost::regex_search` the one for a part of it.
-/

/-- One char of a pattern of the fragment: a literal char, or `.`. -/
inductive Atom where
  | chr (c : Char)
  | dot
  deriving DecidableEq, Repr

/-- The chars an atom matches: a literal matches itself, `.` matches every char. -/
def Atom.accepts : Atom → Char → Bool
  | .chr c, d => decide (d = c)
  | .dot, _ => true

/-- An atom, or an atom followed by `*`. -/
inductive Piece where
  | one (a : Atom)
  | many (a : Atom)
  deriving DecidableEq, Repr

/-- A piece outside parentheses, or a marked sub-expression `( ... )` of pieces. -/
inductive Item where
  | plain (p : Piece)
  | group (ps : List Piece)
  deriving DecidableEq, Repr

/-- The atom a char of a pattern stands for: `.` is any char, the other special
chars of the Perl syntax stand for no atom, every other char is a literal. -/
def atom_of (c : Char) : Option Atom :=
  if c = '.' then some Atom.dot
  else if c ∈ ['[', '{', '}', '(', ')', Char.ofNat 92, '*', '+', '?', '|', '^', '$'] then none
  else some (Atom.chr c)

/-- The reader of patterns, char by char.  `cur` holds the pieces of the marked
sub-expression being read (last one first), or `none` outside parentheses;
`items` holds the items read (last one first).  A `*` turns the atom right
before it into its repetition.  The result is `none` for a pattern outside the
fragment, among them the patterns with an unmatched parenthesis, which
`boost::regex` refuses too. -/
def parse_pattern_loop : Str → Option (List Piece) → List Item → Option (List Item)
  | [], cur, items =>
    match cur with
    | none => some items.reverse
    | some _ => none
  | c :: rest, cur, items =>
    if c = '(' then
      match cur with
      | none => parse_pattern_loop rest (some []) items
      | some _ => none
    else if c = ')' then
      match cur with
      | some (p :: ps) => parse_pattern_loop rest none (Item.group (p :: ps).reverse :: items)
      | _ => none
    else if c = '*' then
      match cur with
      | none =>
        match items with
        | Item.plain (Piece.one a) :: before =>
          parse_pattern_loop rest none (Item.plain (Piece.many a) :: before)
        | _ => none
      | some (Piece.one a :: ps) => parse_pattern_loop rest (some (Piece.many a :: ps)) items
      | some _ => none
    else
      match atom_of c with
      | none => none
      | some a =>
        match cur with
        | none => parse_pattern_loop rest none (Item.plain (Piece.one a) :: items)
        | some ps => parse_pattern_loop rest (some (Piece.one a :: ps)) items

/-- The items of a pattern of the fragment; `none` for every other pattern and
for the empty one. -/
def parse_pattern (pattern : Str) : Option (List Item) :=
  if pattern.length < 1 then none else parse_pattern_loop pattern none []

/-- The strings a piece matches: an atom matches the one-char strings of its
chars, an atom with `*` the strings made of its chars, the empty one included. -/
def Piece.denotes : Piece → Str → Prop
  | .one a, s => ∃ c, s = [c] ∧ a.accepts c = true
  | .many a, s => ∀ c ∈ s, a.accepts c = true

/-- The strings a sequence of pieces matches: those that split into one part
for each piece, in order, each part matched by its piece. -/
def pieces_denote : List Piece → Str → Prop
  | [], s => s = []
  | p :: ps, s => ∃ x y, s = x ++ y ∧ p.denotes x ∧ pieces_denote ps y

/-- The strings an item matches. -/
def Item.denotes : Item → Str → Prop
  | .plain p, s => p.denotes s
  | .group ps, s => pieces_denote ps s

/-- The strings a pattern with these items matches from their first to their
last char: those that split into one part for each item, in order, each part
matched by its item. -/
def items_denote : List Item → Str → Prop
  | [], s => s = []
  | i :: is, s => ∃ x y, s = x ++ y ∧ i.denotes x ∧ items_denote is y

/-- The pattern `pattern` is of the fragment and matches the string `s` from its
first to its last char. -/
def pattern_denotes (pattern s : Str) : Prop :=
  ∃ items, parse_pattern pattern = some items ∧ items_denote items s

/-- The ways an atom with `*` matches at the start of a string, as (chars
matched, chars left), the longest first: `*` is greedy. -/
def Atom.star_splits (a : Atom) : Str → List (Str × Str)
  | [] => [([], [])]
  | c :: s =>
    if a.accepts c = true then
      (Atom.star_splits a s).map (fun r => (c :: r.1, r.2)) ++ [([], c :: s)]
    else [([], c :: s)]

/-- The ways a piece matches at the start of a string, in the order a
backtracking matcher tries them. -/
def Piece.splits : Piece → Str → List (Str × Str)
  | .one _, [] => []
  | .one a, c :: s => if a.accepts c = true then [([c], s)] else []
  | .many a, s => a.star_splits s

/-- The ways a sequence of pieces matches at the start of a string. -/
def pieces_splits : List Piece → Str → List (Str × Str)
  | [], s => [([], s)]
  | p :: ps, s =>
    (p.splits s).flatMap (fun r => (pieces_splits ps r.2).map (fun q => (r.1 ++ q.1, q.2)))

/-- The ways the items of a pattern match at the start of a string, as (the
chars matched by each marked sub-expression, chars left). -/
def items_run : List Item → Str → List (List Str × Str)
  | [], s => [([], s)]
  | Item.plain p :: is, s => (p.splits s).flatMap (fun r => items_run is r.2)
  | Item.group ps :: is, s =>
    (pieces_splits ps s).flatMap (fun r => (items_run is r.2).map (fun q => (r.1 :: q.1, q.2)))

/-- The first way the items match the whole of `line`, no char left: the
sub-matches `what[1]`, `what[2]`, ... of `boost::regex_match`. -/
def regex_match_items (items : List Item) (line : Str) : Option (List Str) :=
  ((items_run items line).find? (fun q => q.2.isEmpty)).map (fun q => q.1)

/-- The answer of `boost::regex_match` for the patterns of the fragment. -/
def fragment_regex_match (pattern line : Str) : Option (List Str) :=
  match parse_pattern pattern with
  | none => none
  | some items => regex_match_items items line

/-- The library on the fragment: it compiles the patterns of the fragment and
matches them against whole lines.  Patterns outside the fragment are refused by
it, though `boost::regex` accepts many of them. -/
def fragment_boost : Boost :=
  { compiles := fun p => (parse_pattern p).isSome, regex_match := fragment_regex_match }

/-- The library answers as `boost::regex_match` is documented to: with a match
exactly when the pattern matches the whole of the line, `denotes p s` being the
meaning of patterns ("`p` matches `s` from its first to its last char"). -/
def Boost.matches_whole (boost : Boost) (denotes : Str → Str → Prop) : Prop :=
  ∀ p line, boost.regex_match p line ≠ none ↔ denotes p line

/-- A meaning of patterns that gives the patterns of the fragment the meaning
defined above. -/
def extends_fragment (denotes : Str → Str → Prop) : Prop :=
  ∀ p items, parse_pattern p = some items → ∀ s, denotes p s ↔ items_denote items s

/-- The rule qualifies for the line: the two tests of `write_colored_line` before
a rule is applied (lines 508 and 511), `boost::regex_match` and
`match_covers_line`, both say yes. -/
def qualifies (boost : Boost) (spec : line_spec) (line : Str) : Bool :=
  match boost.regex_match spec.regexp line with
  | some what => match_covers_line line spec.color_list what
  | none => false

/-! ## Lemmas on `Res` -/

@[simp] theorem Res.pure_eq {α : Type} (a : α) : (pure a : Res α) = Res.ret a [] := rfl

@[simp] theorem Res.bind_eq {α β : Type} (r : Res α) (k : α → Res β) :
    (r >>= k) = r.bind k := rfl

@[simp] theorem Res.bind_abort {α β : Type} (out : Str) (k : α → Res β) :
    (Res.abort out : Res α).bind k = Res.abort out := rfl

@[simp] theorem Res.bind_undefined {α β : Type} (k : α → Res β) :
    (Res.undefined : Res α).bind k = Res.undefined := rfl

theorem Res.bind_ret_nil {α β : Type} (a : α) (k : α → Res β) :
    (Res.ret a []).bind k = k a := by
  cases h : k a <;> simp [Res.bind, h]

theorem Res.bind_eq_ret {α β : Type} (r : Res α) (k : α → Res β) (b : β) (out : Str)
    (h : r.bind k = Res.ret b out) :
    ∃ a o1 o2, r = Res.ret a o1 ∧ k a = Res.ret b o2 ∧ out = o1 ++ o2 := by
  cases r with
  | ret a o1 =>
    cases hk : k a with
    | ret b2 o2 =>
      simp only [Res.bind, hk, Res.ret.injEq] at h
      exact ⟨a, o1, o2, rfl, by rw [hk, h.1], h.2.symm⟩
    | abort o2 => simp [Res.bind, hk] at h
    | undefined => simp [Res.bind, hk] at h
  | abort o1 => simp [Res.bind] at h
  | undefined => simp [Res.bind] at h

/-! ## Lemmas on the colorizer -/

/-- `fprintf` never stops at an assertion. -/
theorem fprintf_ne_abort (fmt out : Str) : fprintf fmt ≠ Res.abort out := by
  unfold fprintf
  cases printf_expand fmt <;> simp

/-- Rules whose pattern does not match the whole line are passed over: the
first rule that matches decides what `write_colored_line` does. -/
theorem write_colored_line_loop_first_match (boost : Boost) (d : color_spec) (line : Str)
    (pre : List line_spec) (spec : line_spec) (rest : List line_spec) (what : List Str)
    (hpre : ∀ p ∈ pre, boost.regex_match p.regexp line = none)
    (hm : boost.regex_match spec.regexp line = some what) :
    write_colored_line_loop boost d line (pre ++ spec :: rest) =
      if what.length = spec.color_list.length then
        (write_captures d spec.color_list what).bind (fun _ => fprintf ['\n'])
      else Res.abort [] := by
  induction pre with
  | nil => simp [write_colored_line_loop, hm, match_covers_line]
  | cons p pre ih =>
    have hp : boost.regex_match p.regexp line = none := hpre p (by simp)
    have ih2 := ih (fun q hq => hpre q (by simp [hq]))
    simp only [List.cons_append, write_colored_line_loop, hp]
    exact ih2

/-- A rule whose pattern does not match the whole line can be deleted without
changing what the loop does. -/
theorem write_colored_line_loop_skip (boost : Boost) (d : color_spec) (line : Str)
    (pre : List line_spec) (spec : line_spec) (rest : List line_spec)
    (hm : boost.regex_match spec.regexp line = none) :
    write_colored_line_loop boost d line (pre ++ spec :: rest) =
      write_colored_line_loop boost d line (pre ++ rest) := by
  induction pre with
  | nil => simp [write_colored_line_loop, hm]
  | cons p pre ih =>
    simp only [List.cons_append, write_colored_line_loop, List.append_eq, ih]

/-- When no rule matches the whole line the loop ends in the code of lines 528-532. -/
theorem write_colored_line_loop_no_match (boost : Boost) (d : color_spec) (line : Str)
    (specs : List line_spec)
    (h : ∀ p ∈ specs, boost.regex_match p.regexp line = none) :
    write_colored_line_loop boost d line specs = write_colored_line_loop boost d line [] := by
  induction specs with
  | nil => rfl
  | cons p specs ih =>
    have hp : boost.regex_match p.regexp line = none := h p (by simp)
    simp only [write_colored_line_loop, hp]
    exact ih (fun q hq => h q (by simp [hq]))

/-! ## The loop of `tokenize` ends within its fuel -/

theorem find_if_some (p : Char → Bool) (l : Str) (i : Nat) (h : find_if p l = some i) :
    i < l.length ∧ ∃ c, l[i]? = some c ∧ p c = true := by
  induction l generalizing i with
  | nil => simp [find_if] at h
  | cons x l ih =>
    unfold find_if at h
    by_cases hx : p x = true
    · simp only [hx, if_true, Option.some.injEq] at h
      subst h
      exact ⟨by simp, x, by simp, hx⟩
    · simp only [hx, Bool.false_eq_true, if_false, Option.map_eq_some'] at h
      rcases h with ⟨j, hj, rfl⟩
      rcases ih j hj with ⟨hlt, c, hc, hpc⟩
      exact ⟨by simp; omega, c, by simpa using hc, hpc⟩

theorem find_first_of_some (str delimiters : Str) (p q : Nat)
    (h : find_first_of str delimiters (some p) = some q) :
    p ≤ q ∧ q < str.length ∧ ∃ c, str[q]? = some c ∧ c ∈ delimiters := by
  unfold find_first_of at h
  simp only [Option.map_eq_some'] at h
  rcases h with ⟨j, hj, rfl⟩
  rcases find_if_some _ _ j hj with ⟨hlt, c, hc, hpc⟩
  simp only [List.length_drop] at hlt
  refine ⟨by omega, by omega, c, ?_, by simpa using hpc⟩
  rw [List.getElem?_drop] at hc
  rw [Nat.add_comm]
  exact hc

theorem find_first_not_of_some (str delimiters : Str) (p q : Nat)
    (h : find_first_not_of str delimiters (some p) = some q) :
    p ≤ q ∧ q < str.length ∧ ∃ c, str[q]? = some c ∧ c ∉ delimiters := by
  unfold find_first_not_of at h
  simp only [Option.map_eq_some'] at h
  rcases h with ⟨j, hj, rfl⟩
  rcases find_if_some _ _ j hj with ⟨hlt, c, hc, hpc⟩
  simp only [List.length_drop] at hlt
  refine ⟨by omega, by omega, c, ?_, by simpa using hpc⟩
  rw [List.getElem?_drop] at hc
  rw [Nat.add_comm]
  exact hc

/-- More fuel than the chars left after `lastPos` never changes what the loop
of `tokenize` computes: the loop has ended before the fuel is used up. -/
theorem tokenize_loop_fuel (str delimiters : Str) :
    ∀ (fuel fuel2 : Nat) (lastPos : Option Nat) (tokens : List Str),
      (∀ lp, lastPos = some lp →
        str.length - lp < fuel ∧ str.length - lp < fuel2 ∧
          ∃ c, str[lp]? = some c ∧ c ∉ delimiters) →
      tokenize_loop str delimiters fuel lastPos (find_first_of str delimiters lastPos) tokens =
        tokenize_loop str delimiters fuel2 lastPos (find_first_of str delimiters lastPos)
          tokens := by
  intro fuel
  induction fuel with
  | zero =>
    intro fuel2 lastPos tokens h
    cases lastPos with
    | none => cases fuel2 <;> simp [tokenize_loop, find_first_of]
    | some lp => exact absurd (h lp rfl).1 (by omega)
  | succ f ih =>
    intro fuel2 lastPos tokens h
    cases lastPos with
    | none => cases fuel2 <;> simp [tokenize_loop, find_first_of]
    | some lp =>
      rcases h lp rfl with ⟨h1, h2, c, hc, hcd⟩
      have hlp : lp < str.length := (List.getElem?_eq_some_iff.mp hc).1
      cases fuel2 with
      | zero => omega
      | succ f2 =>
        cases hpos : find_first_of str delimiters (some lp) with
        | none =>
          simp only [tokenize_loop]
          exact ih f2 none _ (fun lp2 h2 => by simp [find_first_not_of] at h2)
        | some p =>
          rcases find_first_of_some _ _ _ _ hpos with ⟨hle, hplt, c2, hc2, hc2d⟩
          have hne : p ≠ lp := by
            intro heq
            subst heq
            rw [hc] at hc2
            injection hc2 with hcc
            subst hcc
            exact hcd hc2d
          simp only [tokenize_loop]
          apply ih f2
          intro lp2 hlp2
          rcases find_first_not_of_some _ _ _ _ hlp2 with ⟨hle2, hlt2, c3, hc3, hc3d⟩
          exact ⟨by omega, by omega, c3, hc3, hc3d⟩

/-- The fuel `str.length + 1` of `tokenize` is enough: any larger fuel gives
the same tokens. -/
theorem tokenize_fuel_enough (str delimiters : Str) (extra : Nat) :
    tokenize_loop str delimiters (str.length + 1 + extra)
        (find_first_not_of str delimiters (some 0))
        (find_first_of str delimiters (find_first_not_of str delimiters (some 0))) [] =
      tokenize str delimiters := by
  unfold tokenize
  apply tokenize_loop_fuel
  intro lp hlp
  rcases find_first_not_of_some _ _ _ _ hlp with ⟨_, hlt, c, hc, hcd⟩
  exact ⟨by omega, by omega, c, hc, hcd⟩

/-! ## The bytes written for well-formed colors and plain text -/

theorem printf_expand_of_not_mem (s : Str) (h : '%' ∉ s) : printf_expand s = some s := by
  induction s with
  | nil => rfl
  | cons c rest ih =>
    have hc : c ≠ '%' := fun e => h (by simp [e])
    have hr : '%' ∉ rest := fun e => h (by simp [e])
    unfold printf_expand
    simp [hc, ih hr]

theorem c_str_of_not_mem (s : Str) (h : Char.ofNat 0 ∉ s) : c_str s = s := by
  unfold c_str
  simp only [List.takeWhile_eq_self_iff]
  intro x hx
  have : x ≠ Char.ofNat 0 := fun e => h (e ▸ hx)
  simpa using this

/-- Plain text goes through `fprintf` unchanged. -/
theorem fprintf_plain (text : Str) (h : plain_text text) :
    fprintf (c_str text) = Res.ret () text := by
  rw [c_str_of_not_mem text h.2]
  unfold fprintf
  rw [printf_expand_of_not_mem text h.1]

theorem format_d_one_digit (a : Int) (h0 : 0 ≤ a) (h9 : a ≤ 9) :
    (format_d a).length = 1 ∧ '%' ∉ format_d a := by
  interval_cases a <;> decide

theorem format_d_two_digits (a : Int) (h0 : 30 ≤ a) (h9 : a ≤ 47) :
    (format_d a).length = 2 ∧ '%' ∉ format_d a := by
  interval_cases a <;> decide

/-- With every resolved field a constant of the tables, `textcolor` writes the
command `ESC [ attr ; fg+30 ; bg+40 m`. -/
theorem textcolor_concrete (default_color color : color_spec)
    (h : (textcolor_resolve default_color color).concrete) :
    textcolor default_color color =
      Res.ret () (textcolor_command (textcolor_resolve default_color color).attr
        (textcolor_resolve default_color color).foreground
        (textcolor_resolve default_color color).background) := by
  obtain ⟨⟨ha0, ha8⟩, ⟨hf0, hf7⟩, ⟨hb0, hb7⟩⟩ := h
  have hA := format_d_one_digit _ ha0 (by omega)
  have hF := format_d_two_digits ((textcolor_resolve default_color color).foreground + 30)
    (by omega) (by omega)
  have hB := format_d_two_digits ((textcolor_resolve default_color color).background + 40)
    (by omega) (by omega)
  have hlen : (textcolor_command (textcolor_resolve default_color color).attr
      (textcolor_resolve default_color color).foreground
      (textcolor_resolve default_color color).background).length = 10 := by
    simp [textcolor_command, hA.1, hF.1, hB.1]
  have hpct : '%' ∉ textcolor_command (textcolor_resolve default_color color).attr
      (textcolor_resolve default_color color).foreground
      (textcolor_resolve default_color color).background := by
    have hesc : ¬ ('%' = ESC) := by decide
    simp [textcolor_command, hA.2, hF.2, hB.2, hesc]
  unfold textcolor
  have h1 : ¬ (textcolor_resolve default_color color).attr = -1 := by omega
  have h2 : ¬ (textcolor_resolve default_color color).foreground = -1 := by omega
  have h3 : ¬ (textcolor_resolve default_color color).background = -1 := by omega
  have h4 : ¬ (INT_MAX < (textcolor_resolve default_color color).foreground + 30 ∨
      INT_MAX < (textcolor_resolve default_color color).background + 40) := by
    unfold INT_MAX; omega
  simp only [h1, h2, h3, h4, if_false, hlen]
  unfold fprintf
  rw [printf_expand_of_not_mem _ hpct]
  rfl

/-- The loop of lines 515-519 on well-formed colors and plain captures writes
the segments one after the other. -/
theorem write_captures_bytes (d : color_spec) :
    ∀ (color_list : List color_spec) (what : List Str),
      what.length = color_list.length →
      (∀ c ∈ color_list, (textcolor_resolve d c).concrete) →
      (∀ t ∈ what, plain_text t) →
      write_captures d color_list what = Res.ret () (segments_bytes d color_list what) := by
  intro color_list
  induction color_list with
  | nil =>
    intro what hlen _ _
    cases what with
    | nil => rfl
    | cons t ts => simp at hlen
  | cons c cs ih =>
    intro what hlen hc ht
    cases what with
    | nil => simp at hlen
    | cons t ts =>
      have ih2 := ih ts (by simpa using hlen) (fun c2 h2 => hc c2 (by simp [h2]))
        (fun t2 h2 => ht t2 (by simp [h2]))
      have hcol := textcolor_concrete d c (hc c (by simp))
      have htxt := fprintf_plain t (ht t (by simp))
      simp only [write_captures, Res.bind_eq, List.headD_cons, List.tail_cons, hcol, htxt, ih2,
        textcolor_reset, Res.bind, segments_bytes, segment_bytes, List.append_assoc,
        List.nil_append, List.cons_append]

/-- First match wins, in bytes: with the first matching rule `spec`, captures
`what` as many as its colors, well-formed colors and plain captures,
`write_colored_line` writes the segments of `spec` and one newline, whatever
rules follow. -/
theorem write_colored_line_first_match_bytes (boost : Boost) (config : technicolor_config)
    (line : Str) (output_file : File) (pre : List line_spec) (spec : line_spec)
    (rest : List line_spec) (what : List Str)
    (hlist : config.spec_list = pre ++ spec :: rest)
    (hpre : ∀ p ∈ pre, boost.regex_match p.regexp line = none)
    (hm : boost.regex_match spec.regexp line = some what)
    (hlen : what.length = spec.color_list.length)
    (hc : ∀ c ∈ spec.color_list, (textcolor_resolve
      (if output_file = File.stderr then config.stderr_props else config.stdout_props) c).concrete)
    (ht : ∀ t ∈ what, plain_text t) :
    write_colored_line boost config line output_file =
      Res.ret () (segments_bytes
        (if output_file = File.stderr then config.stderr_props else config.stdout_props)
        spec.color_list what ++ ['\n']) := by
  unfold write_colored_line
  rw [hlist, write_colored_line_loop_first_match boost _ line pre spec rest what hpre hm]
  simp only [hlen, if_true]
  rw [write_captures_bytes _ spec.color_list what hlen hc ht]
  rfl

/-- No match, in bytes: with a well-formed default and a plain line the code
after the loop writes the escape of the default, the line, the newline and then
the reset. -/
theorem write_colored_line_no_match_bytes (boost : Boost) (config : technicolor_config)
    (line : Str) (output_file : File)
    (h : ∀ spec ∈ config.spec_list, boost.regex_match spec.regexp line = none)
    (hd : (if output_file = File.stderr then config.stderr_props
      else config.stdout_props).concrete)
    (ht : plain_text line) :
    write_colored_line boost config line output_file =
      Res.ret () (textcolor_command
          (if output_file = File.stderr then config.stderr_props else config.stdout_props).attr
          (if output_file = File.stderr then config.stderr_props
            else config.stdout_props).foreground
          (if output_file = File.stderr then config.stderr_props
            else config.stdout_props).background
        ++ line ++ ['\n'] ++ [ESC, '[', '0', 'm']) := by
  unfold write_colored_line
  rw [write_colored_line_loop_no_match boost _ line config.spec_list h]
  generalize (if output_file = File.stderr then config.stderr_props
    else config.stdout_props) = d at hd ⊢
  have hres : textcolor_resolve d d = d := by
    unfold textcolor_resolve
    cases d with
    | mk a f b => simp
  have hcol := textcolor_concrete d d (by rw [hres]; exact hd)
  rw [hres] at hcol
  have htxt := fprintf_plain line ht
  simp only [write_colored_line_loop, Res.bind_eq, hcol, htxt, textcolor_reset, Res.bind]
  have hnl : fprintf ['\n'] = Res.ret () ['\n'] := by decide
  simp [hnl]

/-! ## C1: resolve totality -/

/-- C1. For every `color` and every default whose three fields are set, the
resolution done in `textcolor` yields a triple whose every field is set and is
the field of `color` when that one is set, the field of the default otherwise,
and no assertion of `textcolor` fails. -/
theorem textcolor_resolve_total (default_color color : color_spec)
    (ha : default_color.attr ≠ -1) (hf : default_color.foreground ≠ -1)
    (hb : default_color.background ≠ -1) :
    ((textcolor_resolve default_color color).attr ≠ -1 ∧
      (textcolor_resolve default_color color).foreground ≠ -1 ∧
      (textcolor_resolve default_color color).background ≠ -1) ∧
    ((textcolor_resolve default_color color).attr =
        if color.attr ≠ -1 then color.attr else default_color.attr) ∧
    ((textcolor_resolve default_color color).foreground =
        if color.foreground ≠ -1 then color.foreground else default_color.foreground) ∧
    ((textcolor_resolve default_color color).background =
        if color.background ≠ -1 then color.background else default_color.background) ∧
    ∀ out, textcolor default_color color ≠ Res.abort out := by
  have h1 : (textcolor_resolve default_color color).attr ≠ -1 := by
    unfold textcolor_resolve; dsimp only; split <;> assumption
  have h2 : (textcolor_resolve default_color color).foreground ≠ -1 := by
    unfold textcolor_resolve; dsimp only; split <;> assumption
  have h3 : (textcolor_resolve default_color color).background ≠ -1 := by
    unfold textcolor_resolve; dsimp only; split <;> assumption
  refine ⟨⟨h1, h2, h3⟩, ?_, ?_, ?_, ?_⟩
  · unfold textcolor_resolve; dsimp only; split <;> simp_all
  · unfold textcolor_resolve; dsimp only; split <;> simp_all
  · unfold textcolor_resolve; dsimp only; split <;> simp_all
  · intro out
    unfold textcolor
    simp only [h1, h2, h3, if_false]
    split
    · simp
    · split
      · simp
      · exact fprintf_ne_abort _ _

/-- C1 at the default `(RESET, WHITE, BLACK)` and the overlay `fg:red`. -/
theorem textcolor_resolve_total_witness :
    textcolor_resolve ⟨0, 7, 0⟩ ⟨-1, 1, -1⟩ = ⟨0, 1, 0⟩ ∧
    ∀ out, textcolor ⟨0, 7, 0⟩ ⟨-1, 1, -1⟩ ≠ Res.abort out :=
  ⟨by decide,
    (textcolor_resolve_total ⟨0, 7, 0⟩ ⟨-1, 1, -1⟩ (by decide) (by decide) (by decide)).2.2.2.2⟩

/-! ## C6: merge is a field-wise overlay -/

/-- C6. After `textcolor_merge(cs1, &cs2)` each field of `cs2` is the field of
`cs1` when that one is set and the previous field of `cs2` otherwise; merging
the all-unset overlay changes nothing, and merging an overlay with only a
foreground changes only the foreground. -/
theorem textcolor_merge_fieldwise (cs1 cs2 : color_spec) :
    (textcolor_merge cs1 cs2).attr = (if cs1.attr ≠ -1 then cs1.attr else cs2.attr) ∧
    (textcolor_merge cs1 cs2).foreground =
      (if cs1.foreground ≠ -1 then cs1.foreground else cs2.foreground) ∧
    (textcolor_merge cs1 cs2).background =
      (if cs1.background ≠ -1 then cs1.background else cs2.background) ∧
    textcolor_merge ⟨-1, -1, -1⟩ cs2 = cs2 ∧
    ∀ fg : Int, textcolor_merge ⟨-1, fg, -1⟩ cs2 =
      { cs2 with foreground := if fg ≠ -1 then fg else cs2.foreground } := by
  refine ⟨?_, ?_, ?_, ?_, ?_⟩
  · unfold textcolor_merge; dsimp only; split_ifs <;> rfl
  · unfold textcolor_merge; dsimp only; split_ifs <;> rfl
  · unfold textcolor_merge; dsimp only; split_ifs <;> rfl
  · rfl
  · intro fg
    unfold textcolor_merge; dsimp only; split_ifs <;> simp_all

/-! ## C9: when the resolution fails -/

/-- C9, the claim as stated fails: the default `(-1, WHITE, BLACK)` has an unset
field, and resolving the fully set `(RESET, RED, BLACK)` against it trips no
assertion; the escape is written. -/
theorem textcolor_incomplete_default_returns :
    (⟨-1, 7, 0⟩ : color_spec).attr = -1 ∧
    textcolor ⟨-1, 7, 0⟩ ⟨0, 1, 0⟩ = Res.ret () (ESC :: "[0;31;40m".toList) := by
  decide

/-- C9 as amended. An assertion of `textcolor` fails exactly when some field is
unset both in `color` and in the default; nothing has been written then. -/
theorem textcolor_abort_iff (default_color color : color_spec) :
    (textcolor default_color color = Res.abort [] ↔
      (color.attr = -1 ∧ default_color.attr = -1) ∨
      (color.foreground = -1 ∧ default_color.foreground = -1) ∨
      (color.background = -1 ∧ default_color.background = -1)) ∧
    ∀ out, textcolor default_color color = Res.abort out → out = [] := by
  have key : ∀ out, textcolor default_color color = Res.abort out →
      out = [] ∧ ((color.attr = -1 ∧ default_color.attr = -1) ∨
      (color.foreground = -1 ∧ default_color.foreground = -1) ∨
      (color.background = -1 ∧ default_color.background = -1)) := by
    intro out h
    unfold textcolor textcolor_resolve at h
    dsimp only at h
    split_ifs at h <;>
      first
        | exact absurd h (fprintf_ne_abort _ _)
        | (injection h with h; subst h; simp_all)
  refine ⟨⟨fun h => (key [] h).2, ?_⟩, fun out h => (key out h).1⟩
  intro h
  unfold textcolor textcolor_resolve
  dsimp only
  rcases h with ⟨h1, h2⟩ | ⟨h1, h2⟩ | ⟨h1, h2⟩
  · simp [h1, h2]
  · simp only [h1, h2, if_true]
    split_ifs <;> rfl
  · simp only [h1, h2, if_true]
    split_ifs <;> rfl

/-! ## C10: a capture count that differs from the color count -/

/-- C10. When the first rule whose pattern matches the line has a number of
capture groups different from the length of its color list,
`write_colored_line` stops at the assertion of line 514 with nothing written:
no later rule is tried and the default color is not used. -/
theorem write_colored_line_count_mismatch (boost : Boost) (config : technicolor_config)
    (line : Str) (output_file : File) (pre : List line_spec) (spec : line_spec)
    (rest : List line_spec) (what : List Str)
    (hlist : config.spec_list = pre ++ spec :: rest)
    (hpre : ∀ p ∈ pre, boost.regex_match p.regexp line = none)
    (hm : boost.regex_match spec.regexp line = some what)
    (hne : what.length ≠ spec.color_list.length) :
    write_colored_line boost config line output_file = Res.abort [] := by
  unfold write_colored_line
  rw [hlist, write_colored_line_loop_first_match boost _ line pre spec rest what hpre hm]
  simp [hne]

/-- C10 on the rules `(ERR)`, `(a)(b)` with one color, `(.*)`: the line `ab` is
not matched by the first, is matched by the second with two captures, and would
be matched by the third. -/
theorem write_colored_line_count_mismatch_witness :
    write_colored_line sample_boost
      { fill_default_config with
        spec_list := [⟨"(ERR)".toList, [⟨-1, 1, -1⟩]⟩, ⟨"(a)(b)".toList, [⟨-1, 1, -1⟩]⟩,
          ⟨"(.*)".toList, [⟨-1, 2, -1⟩]⟩] }
      "ab".toList File.stdout = Res.abort [] :=
  write_colored_line_count_mismatch sample_boost _ "ab".toList File.stdout
    [⟨"(ERR)".toList, [⟨-1, 1, -1⟩]⟩] ⟨"(a)(b)".toList, [⟨-1, 1, -1⟩]⟩
    [⟨"(.*)".toList, [⟨-1, 2, -1⟩]⟩] ["a".toList, "b".toList]
    rfl (by decide) (by decide) (by decide)

/-! ## C5: line framing -/

theorem find_if_append_of_not (p : Char → Bool) (l : Str) (c : Char) (rest : Str)
    (hl : ∀ x ∈ l, p x = false) (hc : p c = true) :
    find_if p (l ++ c :: rest) = some l.length := by
  induction l with
  | nil => simp [find_if, hc]
  | cons x l ih =>
    have hx : p x = false := hl x (by simp)
    have ih2 := ih (fun y hy => hl y (by simp [hy]))
    simp [find_if, hx, ih2]

theorem find_if_none_of_not (p : Char → Bool) (l : Str) (hl : ∀ x ∈ l, p x = false) :
    find_if p l = none := by
  induction l with
  | nil => rfl
  | cons x l ih =>
    have hx : p x = false := hl x (by simp)
    have ih2 := ih (fun y hy => hl y (by simp [hy]))
    simp [find_if, hx, ih2]

/-- The decomposition of a buffer at its first newline. -/
theorem flush_complete_lines_split (boost : Boost) (config : technicolor_config)
    (output_file : File) (l rest : Str) (hl : '\n' ∉ l) :
    flush_complete_lines boost config (l ++ '\n' :: rest) output_file =
      (write_colored_line boost config l output_file).bind
        (fun _ => Res.ret (true, rest) []) := by
  have hfind : find (l ++ '\n' :: rest) '\n' = some l.length := by
    unfold find
    apply find_if_append_of_not
    · intro x hx
      have : x ≠ '\n' := fun h => hl (h ▸ hx)
      simpa using this
    · simp
  have hlen : ¬ (l ++ '\n' :: rest).length < 1 := by simp
  unfold flush_complete_lines
  simp only [hlen, if_false, hfind, substr, List.drop_zero, List.take_left]
  have hdrop : List.drop (l.length + 1) (l ++ '\n' :: rest) = rest := by
    rw [List.drop_append_eq_append_drop]
    simp
  have htake : List.take (l ++ '\n' :: rest).length rest = rest := by
    apply List.take_of_length_le
    simp
    omega
  rw [hdrop, htake]
  rfl

theorem flush_complete_lines_none (boost : Boost) (config : technicolor_config)
    (output_file : File) (buffer : Str) (hno : '\n' ∉ buffer) :
    flush_complete_lines boost config buffer output_file = Res.ret (false, buffer) [] := by
  unfold flush_complete_lines
  have hfind : find buffer '\n' = none := by
    unfold find
    apply find_if_none_of_not
    intro x hx
    have : x ≠ '\n' := fun h => hno (h ▸ hx)
    simpa using this
  simp only [hfind]
  split <;> rfl

/-- C5, the claim as stated fails: the buffer `ab\ncd` has its first newline at
index 2, and with the rule of the config line `(a)(b) = (fg:red)`, two capture
groups and one color, `flush_complete_lines` does not return `true`: the line
`ab` it hands to `write_colored_line` stops at the assertion of line 514. -/
theorem flush_complete_lines_stops_at_assert :
    "ab\ncd".toList[2]? = some '\n' ∧
    write_colored_line sample_boost
        { fill_default_config with spec_list := [⟨"(a)(b)".toList, [⟨-1, 1, -1⟩]⟩] }
        "ab".toList File.stdout = Res.abort [] ∧
    flush_complete_lines sample_boost
        { fill_default_config with spec_list := [⟨"(a)(b)".toList, [⟨-1, 1, -1⟩]⟩] }
        "ab\ncd".toList File.stdout = Res.abort [] := by
  decide

/-- C5 as amended. If the buffer has a newline and `i` is the index of the
first one, the line `flush_complete_lines` hands to `write_colored_line` is
exactly the first `i` chars of the buffer: when `write_colored_line` returns on
them, `flush_complete_lines` returns `true` with what that call wrote and with
the buffer holding exactly the chars after index `i`, and it returns in no other
way.  If the buffer has no newline (the empty buffer included) it returns
`false`, writes nothing and leaves the buffer as it was. -/
theorem flush_complete_lines_framing (boost : Boost) (config : technicolor_config)
    (output_file : File) (buffer : Str) :
    (∀ i : Nat, buffer[i]? = some '\n' → (∀ j, j < i → buffer[j]? ≠ some '\n') →
      (∀ out, write_colored_line boost config (buffer.take i) output_file = Res.ret () out →
        flush_complete_lines boost config buffer output_file =
          Res.ret (true, buffer.drop (i + 1)) out) ∧
      (∀ r out, flush_complete_lines boost config buffer output_file = Res.ret r out →
        r = (true, buffer.drop (i + 1)) ∧
          write_colored_line boost config (buffer.take i) output_file = Res.ret () out)) ∧
    ('\n' ∉ buffer →
      flush_complete_lines boost config buffer output_file = Res.ret (false, buffer) []) := by
  constructor
  · intro i hi hfirst
    have hlt : i < buffer.length := by
      rcases List.getElem?_eq_some_iff.mp hi with ⟨h, _⟩
      exact h
    have hget : buffer[i] = '\n' := by
      rcases List.getElem?_eq_some_iff.mp hi with ⟨_, h⟩
      exact h
    have hsplit : buffer = buffer.take i ++ '\n' :: buffer.drop (i + 1) := by
      rw [← hget, ← List.drop_eq_getElem_cons hlt, List.take_append_drop]
    have hnot : '\n' ∉ buffer.take i := by
      intro hmem
      rcases List.mem_iff_getElem?.mp hmem with ⟨j, hj⟩
      have hji : j < i := by
        have := (List.getElem?_eq_some_iff.mp hj).1
        simp at this
        omega
      rw [List.getElem?_take_of_lt hji] at hj
      exact hfirst j hji hj
    have heq := flush_complete_lines_split boost config output_file (buffer.take i)
      (buffer.drop (i + 1)) hnot
    rw [← hsplit] at heq
    constructor
    · intro out hout
      rw [heq, hout]
      simp [Res.bind]
    · intro r out hret
      rw [heq] at hret
      obtain ⟨u, o1, o2, hu, hk, ho⟩ := Res.bind_eq_ret _ _ _ _ hret
      simp only [Res.ret.injEq] at hk
      refine ⟨hk.1.symm, ?_⟩
      rw [hu, ho, ← hk.2, List.append_nil]
  · intro hno
    exact flush_complete_lines_none boost config output_file buffer hno

/-- C5 on the bytes `abc\ndef` followed by `\n`, with the default config: the
first call writes the line `abc` and leaves `def`, the call on `def` returns
`false`, and after `\n` is added the call writes the line `def` and leaves the
buffer empty, on which the call returns `false`. -/
theorem flush_complete_lines_framing_witness :
    flush_complete_lines sample_boost fill_default_config "abc\ndef".toList File.stdout =
      Res.ret (true, "def".toList) (ESC :: "[0;37;40mabc\n".toList ++ ESC :: "[0m".toList) ∧
    flush_complete_lines sample_boost fill_default_config "def".toList File.stdout =
      Res.ret (false, "def".toList) [] ∧
    flush_complete_lines sample_boost fill_default_config ("def".toList ++ "\n".toList)
        File.stdout =
      Res.ret (true, []) (ESC :: "[0;37;40mdef\n".toList ++ ESC :: "[0m".toList) ∧
    flush_complete_lines sample_boost fill_default_config [] File.stdout =
      Res.ret (false, []) [] :=
  ⟨((flush_complete_lines_framing sample_boost fill_default_config File.stdout
      "abc\ndef".toList).1 3 (by decide) (by decide)).1 _ (by decide),
    (flush_complete_lines_framing sample_boost fill_default_config File.stdout
      "def".toList).2 (by decide),
    ((flush_complete_lines_framing sample_boost fill_default_config File.stdout
      ("def".toList ++ "\n".toList)).1 3 (by decide) (by decide)).1 _ (by decide),
    (flush_complete_lines_framing sample_boost fill_default_config File.stdout
      []).2 (by decide)⟩

/-! ## C8: only a match of the whole line counts -/

theorem Atom.star_splits_mem (a : Atom) (s x r : Str) :
    (x, r) ∈ a.star_splits s ↔ s = x ++ r ∧ ∀ c ∈ x, a.accepts c = true := by
  induction s generalizing x r with
  | nil =>
    simp only [Atom.star_splits, List.mem_singleton, Prod.mk.injEq]
    constructor
    · rintro ⟨rfl, rfl⟩
      simp
    · rintro ⟨h, _⟩
      have h2 := List.append_eq_nil.mp h.symm
      exact h2
  | cons c s ih =>
    unfold Atom.star_splits
    by_cases hc : a.accepts c = true
    · simp only [hc, if_true, List.mem_append, List.mem_map, List.mem_singleton, Prod.mk.injEq,
        Prod.exists]
      constructor
      · rintro (⟨x1, r1, hmem, rfl, rfl⟩ | ⟨rfl, rfl⟩)
        · obtain ⟨h1, h2⟩ := (ih x1 r1).mp hmem
          refine ⟨by simp [h1], ?_⟩
          intro d hd
          rcases List.mem_cons.mp hd with e | e
          · rw [e]; exact hc
          · exact h2 d e
        · simp
      · rintro ⟨h1, h2⟩
        cases x with
        | nil => right; simpa using h1.symm
        | cons d x1 =>
          left
          simp only [List.cons_append, List.cons.injEq] at h1
          refine ⟨x1, r, (ih x1 r).mpr ⟨h1.2, fun e he => h2 e (List.mem_cons_of_mem _ he)⟩,
            by rw [h1.1], rfl⟩
    · simp only [hc, if_false, List.mem_singleton, Prod.mk.injEq, Bool.false_eq_true]
      constructor
      · rintro ⟨rfl, rfl⟩
        simp
      · rintro ⟨h1, h2⟩
        cases x with
        | nil => simpa using h1.symm
        | cons d x1 =>
          exfalso
          simp only [List.cons_append, List.cons.injEq] at h1
          exact hc (by rw [h1.1]; exact h2 d (List.mem_cons_self _ _))

theorem Piece.splits_mem (p : Piece) (s x r : Str) :
    (x, r) ∈ p.splits s ↔ s = x ++ r ∧ p.denotes x := by
  cases p with
  | one a =>
    cases s with
    | nil =>
      simp only [Piece.splits, List.not_mem_nil, Piece.denotes, false_iff]
      rintro ⟨h, c, rfl, _⟩
      simp at h
    | cons c s =>
      simp only [Piece.splits, Piece.denotes]
      by_cases hc : a.accepts c = true
      · simp only [hc, if_true, List.mem_singleton, Prod.mk.injEq]
        constructor
        · rintro ⟨rfl, rfl⟩
          exact ⟨rfl, c, rfl, hc⟩
        · rintro ⟨h, d, rfl, _⟩
          simp only [List.singleton_append, List.cons.injEq] at h
          exact ⟨by rw [h.1], h.2.symm⟩
      · simp only [hc, if_false, List.not_mem_nil, false_iff, Bool.false_eq_true]
        rintro ⟨h, d, rfl, hd⟩
        simp only [List.singleton_append, List.cons.injEq] at h
        exact hc (by rw [h.1]; exact hd)
  | many a =>
    simp only [Piece.splits, Piece.denotes]
    exact Atom.star_splits_mem a s x r

theorem pieces_splits_mem (ps : List Piece) (s x r : Str) :
    (x, r) ∈ pieces_splits ps s ↔ s = x ++ r ∧ pieces_denote ps x := by
  induction ps generalizing s x r with
  | nil =>
    simp only [pieces_splits, List.mem_singleton, Prod.mk.injEq, pieces_denote]
    constructor
    · rintro ⟨rfl, rfl⟩
      simp
    · rintro ⟨h, rfl⟩
      exact ⟨rfl, by simpa using h.symm⟩
  | cons p ps ih =>
    simp only [pieces_splits, List.mem_flatMap, List.mem_map, Prod.mk.injEq, Prod.exists,
      pieces_denote]
    constructor
    · rintro ⟨x1, r1, h1, x2, r2, h2, rfl, rfl⟩
      obtain ⟨e1, d1⟩ := (Piece.splits_mem p s x1 r1).mp h1
      obtain ⟨e2, d2⟩ := (ih r1 x2 r2).mp h2
      exact ⟨by rw [e1, e2, List.append_assoc], x1, x2, rfl, d1, d2⟩
    · rintro ⟨e, x1, x2, rfl, d1, d2⟩
      refine ⟨x1, x2 ++ r, (Piece.splits_mem p s x1 (x2 ++ r)).mpr
        ⟨by rw [e, List.append_assoc], d1⟩, x2, r, (ih (x2 ++ r) x2 r).mpr ⟨rfl, d2⟩, rfl, rfl⟩

theorem items_run_mem (items : List Item) (s r : Str) :
    (∃ caps, (caps, r) ∈ items_run items s) ↔ ∃ x, s = x ++ r ∧ items_denote items x := by
  induction items generalizing s r with
  | nil =>
    simp only [items_run, List.mem_singleton, Prod.mk.injEq, items_denote]
    constructor
    · rintro ⟨_, _, rfl⟩
      exact ⟨[], rfl, rfl⟩
    · rintro ⟨x, h, rfl⟩
      exact ⟨[], rfl, by simpa using h.symm⟩
  | cons i is ih =>
    cases i with
    | plain p =>
      simp only [items_run, List.mem_flatMap, Prod.exists, items_denote, Item.denotes]
      constructor
      · rintro ⟨caps, x1, r1, h1, h2⟩
        obtain ⟨e1, d1⟩ := (Piece.splits_mem p s x1 r1).mp h1
        obtain ⟨x2, e2, d2⟩ := (ih r1 r).mp ⟨caps, h2⟩
        exact ⟨x1 ++ x2, by rw [e1, e2, List.append_assoc], x1, x2, rfl, d1, d2⟩
      · rintro ⟨x, e, x1, x2, rfl, d1, d2⟩
        obtain ⟨caps, hc⟩ := (ih (x2 ++ r) r).mpr ⟨x2, rfl, d2⟩
        exact ⟨caps, x1, x2 ++ r, (Piece.splits_mem p s x1 (x2 ++ r)).mpr
          ⟨by rw [e, List.append_assoc], d1⟩, hc⟩
    | group ps =>
      simp only [items_run, List.mem_flatMap, List.mem_map, Prod.mk.injEq, Prod.exists,
        items_denote, Item.denotes]
      constructor
      · rintro ⟨caps, x1, r1, h1, caps2, r2, h2, _, rfl⟩
        obtain ⟨e1, d1⟩ := (pieces_splits_mem ps s x1 r1).mp h1
        obtain ⟨x2, e2, d2⟩ := (ih r1 r2).mp ⟨caps2, h2⟩
        exact ⟨x1 ++ x2, by rw [e1, e2, List.append_assoc], x1, x2, rfl, d1, d2⟩
      · rintro ⟨x, e, x1, x2, rfl, d1, d2⟩
        obtain ⟨caps, hc⟩ := (ih (x2 ++ r) r).mpr ⟨x2, rfl, d2⟩
        exact ⟨x1 :: caps, x1, x2 ++ r, (pieces_splits_mem ps s x1 (x2 ++ r)).mpr
          ⟨by rw [e, List.append_assoc], d1⟩, caps, r, hc, rfl, rfl⟩

theorem regex_match_items_ne_none (items : List Item) (line : Str) :
    regex_match_items items line ≠ none ↔ items_denote items line := by
  unfold regex_match_items
  rw [ne_eq, Option.map_eq_none', List.find?_eq_none]
  constructor
  · intro h
    simp only [not_forall] at h
    obtain ⟨q, hq, hq2⟩ := h
    simp only [List.isEmpty_iff, not_not] at hq2
    obtain ⟨x, e, d⟩ := (items_run_mem items line []).mp ⟨q.1, by rw [← hq2]; exact hq⟩
    rw [List.append_nil] at e
    rw [e]
    exact d
  · intro d h
    obtain ⟨caps, hc⟩ := (items_run_mem items line []).mpr ⟨line, by simp, d⟩
    exact h (caps, []) hc (by simp)

theorem fragment_regex_match_ne_none (pattern line : Str) :
    fragment_regex_match pattern line ≠ none ↔ pattern_denotes pattern line := by
  unfold fragment_regex_match pattern_denotes
  cases h : parse_pattern pattern with
  | none => simp
  | some items =>
    simp only [Option.some.injEq, exists_eq_left']
    exact regex_match_items_ne_none items line

/-- A literal char outside parentheses. -/
theorem items_run_literal (c : Char) (is : List Item) (s : Str) :
    items_run (Item.plain (Piece.one (Atom.chr c)) :: is) s =
      match s with
      | [] => []
      | d :: t => if d = c then items_run is t else [] := by
  cases s with
  | nil => simp [items_run, Piece.splits]
  | cons d t =>
    by_cases h : d = c
    · simp [items_run, Piece.splits, Atom.accepts, h]
    · simp [items_run, Piece.splits, Atom.accepts, h]

/-- The greedy `.*` tries the whole string first. -/
theorem star_splits_dot_head (s : Str) :
    ∃ tl, Atom.dot.star_splits s = (s, []) :: tl := by
  induction s with
  | nil => exact ⟨[], rfl⟩
  | cons c s ih =>
    obtain ⟨tl, h⟩ := ih
    exact ⟨tl.map (fun r => (c :: r.1, r.2)) ++ [([], c :: s)], by
      simp [Atom.star_splits, Atom.accepts, h]⟩

/-- The pattern `(.*)` matches every line, the whole line being its sub-match. -/
theorem regex_match_items_dot_star (s : Str) :
    regex_match_items [Item.group [Piece.many Atom.dot]] s = some [s] := by
  obtain ⟨tl, h⟩ := star_splits_dot_head s
  simp [regex_match_items, items_run, pieces_splits, Piece.splits, h]

/-- Literal chars outside parentheses match themselves at the start. -/
theorem items_run_literals (w : Str) (is : List Item) (s : Str) :
    items_run (w.map (fun c => Item.plain (Piece.one (Atom.chr c))) ++ is) s =
      if s.take w.length = w then items_run is (s.drop w.length) else [] := by
  induction w generalizing s with
  | nil => simp
  | cons c w ih =>
    rw [List.map_cons, List.cons_append, items_run_literal]
    cases s with
    | nil => simp
    | cons d t =>
      by_cases h : d = c
      · simp [h, ih]
      · simp [h]

/-- Literal chars in parentheses match themselves at the start. -/
theorem pieces_splits_literals (w s : Str) :
    pieces_splits (w.map (fun c => Piece.one (Atom.chr c))) s =
      if s.take w.length = w then [(w, s.drop w.length)] else [] := by
  induction w generalizing s with
  | nil => simp [pieces_splits]
  | cons c w ih =>
    cases s with
    | nil => simp [pieces_splits, Piece.splits]
    | cons d t =>
      by_cases h : d = c
      · by_cases h2 : List.take w.length t = w
        · simp [pieces_splits, Piece.splits, Atom.accepts, h, ih, h2]
        · simp [pieces_splits, Piece.splits, Atom.accepts, h, ih, h2]
      · simp [pieces_splits, Piece.splits, Atom.accepts, h]

/-- A marked sub-expression of literal chars matches them at the start. -/
theorem items_run_group_literals (w : Str) (is : List Item) (s : Str) :
    items_run (Item.group (w.map (fun c => Piece.one (Atom.chr c))) :: is) s =
      if s.take w.length = w then
        (items_run is (s.drop w.length)).map (fun q => (w :: q.1, q.2))
      else [] := by
  simp only [items_run, pieces_splits_literals]
  split_ifs <;> simp

/-- A string is `w` exactly when it starts with `w` and nothing follows. -/
theorem take_drop_eq_iff (w s : Str) :
    (s.take w.length = w ∧ s.drop w.length = []) ↔ s = w := by
  constructor
  · rintro ⟨h1, h2⟩
    have := List.take_append_drop w.length s
    rw [h1, h2, List.append_nil] at this
    exact this.symm
  · rintro rfl
    simp

/-- Two marked sub-expressions of literal chars match their concatenation alone. -/
theorem regex_match_items_two_groups (w1 w2 s : Str) :
    regex_match_items [Item.group (w1.map (fun c => Piece.one (Atom.chr c))),
        Item.group (w2.map (fun c => Piece.one (Atom.chr c)))] s =
      if s = w1 ++ w2 then some [w1, w2] else none := by
  have key : s = w1 ++ w2 ↔ (s.take w1.length = w1 ∧
      (s.drop w1.length).take w2.length = w2 ∧ (s.drop w1.length).drop w2.length = []) := by
    constructor
    · rintro rfl
      simp
    · rintro ⟨h1, h2, h3⟩
      have e1 := List.take_append_drop w1.length s
      have e2 := List.take_append_drop w2.length (s.drop w1.length)
      rw [h2, h3, List.append_nil] at e2
      rw [h1, ← e2] at e1
      exact e1.symm
  unfold regex_match_items
  rw [items_run_group_literals]
  by_cases h1 : s.take w1.length = w1
  · rw [if_pos h1, items_run_group_literals]
    by_cases h2 : (s.drop w1.length).take w2.length = w2
    · rw [if_pos h2]
      by_cases h3 : (s.drop w1.length).drop w2.length = []
      · rw [if_pos (key.mpr ⟨h1, h2, h3⟩)]
        simp [items_run, h3]
      · rw [if_neg (fun e => h3 (key.mp e).2.2)]
        generalize List.drop w2.length (List.drop w1.length s) = d at h3
        cases d with
        | nil => exact absurd rfl h3
        | cons x xs => simp [items_run]
    · rw [if_neg h2, if_neg (fun e => h2 (key.mp e).2.1)]
      rfl
  · rw [if_neg h1, if_neg (fun e => h1 (key.mp e).1)]
    rfl

/-- The table of the worked examples holds, for its four patterns and every
line, the answer of the library computed from the fragment. -/
theorem sample_regex_match_eq_fragment (pattern line : Str)
    (h : pattern ∈ ["ERROR: (.*)".toList, "(ERR)".toList, "(.*)".toList, "(a)(b)".toList]) :
    sample_regex_match pattern line = fragment_regex_match pattern line := by
  simp only [List.mem_cons, List.mem_singleton, List.not_mem_nil, or_false] at h
  rcases h with h | h | h | h
  · subst h
    have hp : parse_pattern "ERROR: (.*)".toList = some
        ("ERROR: ".toList.map (fun c => Item.plain (Piece.one (Atom.chr c))) ++
          [Item.group [Piece.many Atom.dot]]) := by
      decide
    have hs : sample_regex_match "ERROR: (.*)".toList line =
        if line.take 7 = "ERROR: ".toList then some [line.drop 7] else none := by
      unfold sample_regex_match
      rw [if_pos rfl]
    rw [hs]
    unfold fragment_regex_match
    rw [hp]
    simp only []
    have hrun := items_run_literals "ERROR: ".toList [Item.group [Piece.many Atom.dot]] line
    have hlen : "ERROR: ".toList.length = 7 := by decide
    rw [hlen] at hrun
    by_cases ht : line.take 7 = "ERROR: ".toList
    · rw [if_pos ht] at hrun
      rw [if_pos ht]
      have := regex_match_items_dot_star (line.drop 7)
      unfold regex_match_items at this ⊢
      rw [hrun, this]
    · rw [if_neg ht] at hrun
      rw [if_neg ht]
      unfold regex_match_items
      rw [hrun]
      rfl
  · subst h
    have hp : parse_pattern "(ERR)".toList = some
        [Item.group ("ERR".toList.map (fun c => Piece.one (Atom.chr c)))] := by
      decide
    have hs : sample_regex_match "(ERR)".toList line =
        if line = "ERR".toList then some ["ERR".toList] else none := by
      unfold sample_regex_match
      rw [if_neg (by decide), if_pos rfl]
    rw [hs]
    unfold fragment_regex_match
    rw [hp]
    simp only []
    unfold regex_match_items
    rw [items_run_group_literals]
    have hlen : "ERR".toList.length = 3 := by decide
    have hiff := take_drop_eq_iff "ERR".toList line
    rw [hlen] at hiff ⊢
    by_cases hl : line = "ERR".toList
    · rw [if_pos hl, if_pos (hiff.mpr hl).1]
      simp [items_run, (hiff.mpr hl).2]
    · rw [if_neg hl]
      by_cases ht : List.take 3 line = "ERR".toList
      · rw [if_pos ht]
        have hd : List.drop 3 line ≠ [] := fun hd => hl (hiff.mp ⟨ht, hd⟩)
        simp [items_run, hd]
      · rw [if_neg ht]
        rfl
  · subst h
    have hp : parse_pattern "(.*)".toList = some [Item.group [Piece.many Atom.dot]] := by decide
    have hs : sample_regex_match "(.*)".toList line = some [line] := by
      unfold sample_regex_match
      rw [if_neg (by decide), if_neg (by decide), if_pos rfl]
    rw [hs]
    unfold fragment_regex_match
    rw [hp]
    exact (regex_match_items_dot_star line).symm
  · subst h
    have hp : parse_pattern "(a)(b)".toList = some
        [Item.group ("a".toList.map (fun c => Piece.one (Atom.chr c))),
          Item.group ("b".toList.map (fun c => Piece.one (Atom.chr c)))] := by
      decide
    have hs : sample_regex_match "(a)(b)".toList line =
        if line = "ab".toList then some ["a".toList, "b".toList] else none := by
      unfold sample_regex_match
      rw [if_neg (by decide), if_neg (by decide), if_neg (by decide), if_pos rfl]
    rw [hs]
    unfold fragment_regex_match
    rw [hp]
    simp only []
    exact (regex_match_items_two_groups "a".toList "b".toList line).symm

/-- The library on the fragment meets the contract of `boost::regex_match`. -/
theorem fragment_boost_matches_whole : fragment_boost.matches_whole pattern_denotes :=
  fun p line => fragment_regex_match_ne_none p line

theorem pattern_denotes_extends_fragment : extends_fragment pattern_denotes := by
  intro p items hp s
  unfold pattern_denotes
  rw [hp]
  simp

/-- With a library that meets the contract, a rule qualifies exactly when its
pattern matches the whole of the line. -/
theorem qualifies_iff (boost : Boost) (denotes : Str → Str → Prop)
    (hlib : boost.matches_whole denotes) (spec : line_spec) (line : Str) :
    qualifies boost spec line = true ↔ denotes spec.regexp line := by
  unfold qualifies
  cases h : boost.regex_match spec.regexp line with
  | none =>
    simp only [Bool.false_eq_true, false_iff]
    intro hd
    exact (hlib spec.regexp line).mpr hd h
  | some what =>
    simp only [match_covers_line, true_iff]
    exact (hlib spec.regexp line).mp (by rw [h]; simp)

/-- A rule that does not qualify got no match from `boost::regex_match`. -/
theorem regex_match_none_of_not_qualifies (boost : Boost) (spec : line_spec) (line : Str)
    (h : qualifies boost spec line = false) : boost.regex_match spec.regexp line = none := by
  unfold qualifies at h
  cases hm : boost.regex_match spec.regexp line with
  | none => rfl
  | some what =>
    rw [hm] at h
    simp [match_covers_line] at h

/-- C8. The library computed from the fragment answers with a match exactly
when the pattern matches the line from its first to its last char.  And for
every library that answers so (as `boost::regex_match` is documented to), the
patterns of the fragment having the meaning defined above: a rule qualifies for
a line only if its pattern matches the line from its first to its last char; a
rule whose pattern matches a part `s` of the line (`line = a ++ s ++ b`) and not
the line does not qualify; a rule that does not qualify can be deleted without
changing what `write_colored_line` does; and when no rule qualifies the line is
written by the code after the loop (lines 528-532) in the default color of the
stream.  So the rule `(ERR)` qualifies for the line `ERR` and not for
`an ERR here`. -/
theorem write_colored_line_full_match_only :
    (fragment_boost.matches_whole pattern_denotes ∧ extends_fragment pattern_denotes) ∧
    ∀ (boost : Boost) (denotes : Str → Str → Prop),
      boost.matches_whole denotes → extends_fragment denotes →
      ∀ (config : technicolor_config) (line : Str) (output_file : File),
        (∀ spec : line_spec, qualifies boost spec line = true → denotes spec.regexp line) ∧
        (∀ (spec : line_spec) (a s b : Str), line = a ++ s ++ b → denotes spec.regexp s →
          ¬ denotes spec.regexp line → qualifies boost spec line = false) ∧
        (∀ (pre : List line_spec) (spec : line_spec) (rest : List line_spec),
          config.spec_list = pre ++ spec :: rest → qualifies boost spec line = false →
          write_colored_line boost config line output_file =
            write_colored_line boost { config with spec_list := pre ++ rest } line
              output_file) ∧
        ((∀ spec ∈ config.spec_list, qualifies boost spec line = false) →
          write_colored_line boost config line output_file =
            (textcolor
                (if output_file = File.stderr then config.stderr_props
                  else config.stdout_props)
                (if output_file = File.stderr then config.stderr_props
                  else config.stdout_props)).bind
              (fun _ => (fprintf (c_str line)).bind
                (fun _ => (fprintf ['\n']).bind (fun _ => textcolor_reset)))) ∧
        (∀ color_list : List color_spec,
          qualifies boost ⟨"(ERR)".toList, color_list⟩ "ERR".toList = true ∧
          qualifies boost ⟨"(ERR)".toList, color_list⟩ "an ERR here".toList = false) := by
  refine ⟨⟨fragment_boost_matches_whole, pattern_denotes_extends_fragment⟩, ?_⟩
  intro boost denotes hlib hfrag config line output_file
  refine ⟨?_, ?_, ?_, ?_, ?_⟩
  · intro spec h
    exact (qualifies_iff boost denotes hlib spec line).mp h
  · intro spec a s b _ _ hno
    cases hq : qualifies boost spec line with
    | false => rfl
    | true => exact absurd ((qualifies_iff boost denotes hlib spec line).mp hq) hno
  · intro pre spec rest hlist hq
    unfold write_colored_line
    rw [hlist]
    exact write_colored_line_loop_skip boost _ line pre spec rest
      (regex_match_none_of_not_qualifies boost spec line hq)
  · intro h
    unfold write_colored_line
    rw [write_colored_line_loop_no_match boost _ line config.spec_list
      (fun spec hs => regex_match_none_of_not_qualifies boost spec line (h spec hs))]
    rfl
  · intro color_list
    have hp : parse_pattern "(ERR)".toList = some [Item.group
        [Piece.one (Atom.chr 'E'), Piece.one (Atom.chr 'R'), Piece.one (Atom.chr 'R')]] := by
      decide
    constructor
    · apply (qualifies_iff boost denotes hlib _ _).mpr
      apply (hfrag _ _ hp _).mpr
      exact (regex_match_items_ne_none _ _).mp (by decide)
    · cases hq : qualifies boost ⟨"(ERR)".toList, color_list⟩ "an ERR here".toList with
      | false => rfl
      | true =>
        exfalso
        have hd := (hfrag _ _ hp _).mp ((qualifies_iff boost denotes hlib _ _).mp hq)
        exact absurd ((regex_match_items_ne_none _ _).mpr hd) (by decide)

/-- C8 on the library computed from the fragment, the rule `(ERR)` with the
color red and the line `an ERR here`: the pattern matches the part `ERR` of the
line and not the line, the rule does not qualify, and the line is written in
the default color of stdout. -/
theorem write_colored_line_full_match_only_witness :
    pattern_denotes "(ERR)".toList "ERR".toList ∧
    "an ERR here".toList = "an ".toList ++ "ERR".toList ++ " here".toList ∧
    ¬ pattern_denotes "(ERR)".toList "an ERR here".toList ∧
    fragment_boost.regex_match "(ERR)".toList "ERR".toList = some ["ERR".toList] ∧
    fragment_boost.regex_match "(ERR)".toList "an ERR here".toList = none ∧
    qualifies fragment_boost ⟨"(ERR)".toList, [⟨-1, 1, -1⟩]⟩ "an ERR here".toList = false ∧
    write_colored_line fragment_boost
        { fill_default_config with spec_list := [⟨"(ERR)".toList, [⟨-1, 1, -1⟩]⟩] }
        "an ERR here".toList File.stdout =
      Res.ret () (ESC :: "[0;37;40man ERR here\n".toList ++ ESC :: "[0m".toList) :=
  ⟨(fragment_regex_match_ne_none _ _).mp (by decide), by decide,
    fun h => absurd ((fragment_regex_match_ne_none _ _).mpr h) (by decide), by decide,
    by decide,
    ((write_colored_line_full_match_only.2 fragment_boost pattern_denotes
      fragment_boost_matches_whole pattern_denotes_extends_fragment
      { fill_default_config with spec_list := [⟨"(ERR)".toList, [⟨-1, 1, -1⟩]⟩] }
      "an ERR here".toList File.stdout).2.2.2.2 [⟨-1, 1, -1⟩]).2,
    ((write_colored_line_full_match_only.2 fragment_boost pattern_denotes
      fragment_boost_matches_whole pattern_denotes_extends_fragment
      { fill_default_config with spec_list := [⟨"(ERR)".toList, [⟨-1, 1, -1⟩]⟩] }
      "an ERR here".toList File.stdout).2.2.2.1 (by decide)).trans (by decide)⟩

/-! ## C2, C3, C4, C7: what the code writes at the inputs where it departs -/

/-- C2 at the config lines `(.*) = (fg:red)` and `(.*) = (fg:green)` and the
stdout line `100%% done`: the first rule alone is applied (red), and the text
written for its capture is `100% done`, not the capture `100%% done`, the
capture being passed to `fprintf` as the format (line 517). -/
theorem write_colored_line_capture_as_format :
    parse_config_file sample_boost ["(.*) = (fg:red)".toList, "(.*) = (fg:green)".toList]
        fill_default_config =
      Res.ret { fill_default_config with
        spec_list := [⟨"(.*)".toList, [⟨-1, 1, -1⟩]⟩, ⟨"(.*)".toList, [⟨-1, 2, -1⟩]⟩] } [] ∧
    write_colored_line sample_boost
        { fill_default_config with
          spec_list := [⟨"(.*)".toList, [⟨-1, 1, -1⟩]⟩, ⟨"(.*)".toList, [⟨-1, 2, -1⟩]⟩] }
        "100%% done".toList File.stdout =
      Res.ret () (ESC :: "[0;31;40m100% done".toList ++ ESC :: "[0m\n".toList) := by
  decide

/-- C3 at the default config without rules and the stderr line `50%% off`: the
text written between the default escape and the newline is `50% off`, not the
line, the line being passed to `fprintf` as the format (line 530). -/
theorem write_colored_line_line_as_format :
    write_colored_line sample_boost fill_default_config "50%% off".toList File.stderr =
      Res.ret () (ESC :: "[0;31;40m50% off\n".toList ++ ESC :: "[0m".toList) ∧
    write_colored_line sample_boost fill_default_config "50% off".toList File.stderr =
      Res.undefined := by
  decide

/-- C4 at the default config and the stdout line `abc`.  Without a rule the
newline is written before the reset (lines 530-532), so the reset does not
follow the text directly and the newline is not after the reset; with the rule
`(.*) = (fg:red)` the same line is written as escape, text, reset, newline
(lines 516-520). -/
theorem write_colored_line_fallback_order :
    write_colored_line sample_boost fill_default_config "abc".toList File.stdout =
      Res.ret () (ESC :: "[0;37;40mabc".toList ++ '\n' :: ESC :: "[0m".toList) ∧
    write_colored_line sample_boost
        { fill_default_config with spec_list := [⟨"(.*)".toList, [⟨-1, 1, -1⟩]⟩] }
        "abc".toList File.stdout =
      Res.ret () (ESC :: "[0;31;40mabc".toList ++ ESC :: "[0m".toList ++ ['\n']) := by
  decide

/-- C7 at the config line `ERROR: (.*) = (fg:red)` and the stdout line
`ERROR: disk full`: only the capture is written; the text `ERROR: ` of the line
is in the output nowhere. -/
theorem write_colored_line_drops_uncaptured :
    parse_line_spec sample_boost "ERROR: (.*) = (fg:red)".toList fill_default_config =
      Res.ret { fill_default_config with
        spec_list := [⟨"ERROR: (.*)".toList, [⟨-1, 1, -1⟩]⟩] } [] ∧
    sample_boost.regex_match "ERROR: (.*)".toList "ERROR: disk full".toList =
      some ["disk full".toList] ∧
    write_colored_line sample_boost
        { fill_default_config with spec_list := [⟨"ERROR: (.*)".toList, [⟨-1, 1, -1⟩]⟩] }
        "ERROR: disk full".toList File.stdout =
      Res.ret () (ESC :: "[0;31;40mdisk full".toList ++ ESC :: "[0m\n".toList) := by
  decide

/-! ## Lemmas on the config parser -/

theorem lookup_attr_const_returns (x : Str) :
    ∃ v out, lookup_attr_const x = Res.ret v out ∧
      (v = -1 ∨ v ∈ [RESET, BRIGHT, DIM, UNDERLINE, BLINK, REVERSE, HIDDEN]) := by
  unfold lookup_attr_const
  split_ifs
  all_goals first
    | exact ⟨_, _, rfl, Or.inl rfl⟩
    | exact ⟨_, _, rfl, Or.inr (by simp)⟩

theorem lookup_color_const_returns (x : Str) :
    ∃ v out, lookup_color_const x = Res.ret v out ∧ (v = -1 ∨ (0 ≤ v ∧ v ≤ 7)) := by
  unfold lookup_color_const
  split_ifs
  all_goals first
    | exact ⟨_, _, rfl, Or.inl rfl⟩
    | exact ⟨_, _, rfl, Or.inr (by decide)⟩

/-- `parse_color_spec_part` always returns; a color it yields has every field
unset or from the tables, and a refused part yields none. -/
theorem parse_color_spec_part_returns (s : Str) :
    ∃ r out, parse_color_spec_part s = Res.ret r out ∧
      (∀ cs, r = some cs → cs.unset_or_of_tables) ∧ (bad_part s → r = none) := by
  unfold parse_color_spec_part
  dsimp only
  by_cases hlen : (tokenize s [':']).length ≠ 2
  · rw [if_pos hlen]
    exact ⟨none, _, rfl, by simp, fun _ => rfl⟩
  · rw [if_neg hlen]
    by_cases h1 : trim ((tokenize s [':']).getD 0 []) = "attr".toList
    · rw [if_pos h1]
      obtain ⟨v, out, hv, hp⟩ := lookup_attr_const_returns (trim ((tokenize s [':']).getD 1 []))
      refine ⟨some ⟨v, -1, -1⟩, out ++ [], ?_, ?_, ?_⟩
      · simp only [Res.bind_eq, Res.pure_eq, hv, Res.bind]
      · intro cs hcs
        injection hcs with hcs
        subst hcs
        exact ⟨hp, Or.inl rfl, Or.inl rfl⟩
      · intro hb
        rcases hb with hb | hb
        · exact absurd hb hlen
        · rw [h1] at hb
          exact absurd (by simp) hb
    · rw [if_neg h1]
      by_cases h2 : trim ((tokenize s [':']).getD 0 []) = "bg".toList
      · rw [if_pos h2]
        obtain ⟨v, out, hv, hp⟩ :=
          lookup_color_const_returns (trim ((tokenize s [':']).getD 1 []))
        refine ⟨some ⟨-1, -1, v⟩, out ++ [], ?_, ?_, ?_⟩
        · simp only [Res.bind_eq, Res.pure_eq, hv, Res.bind]
        · intro cs hcs
          injection hcs with hcs
          subst hcs
          exact ⟨Or.inl rfl, Or.inl rfl, hp⟩
        · intro hb
          rcases hb with hb | hb
          · exact absurd hb hlen
          · rw [h2] at hb
            exact absurd (by simp) hb
      · rw [if_neg h2]
        by_cases h3 : trim ((tokenize s [':']).getD 0 []) = "fg".toList
        · rw [if_pos h3]
          obtain ⟨v, out, hv, hp⟩ :=
            lookup_color_const_returns (trim ((tokenize s [':']).getD 1 []))
          refine ⟨some ⟨-1, v, -1⟩, out ++ [], ?_, ?_, ?_⟩
          · simp only [Res.bind_eq, Res.pure_eq, hv, Res.bind]
          · intro cs hcs
            injection hcs with hcs
            subst hcs
            exact ⟨Or.inl rfl, hp, Or.inl rfl⟩
          · intro hb
            rcases hb with hb | hb
            · exact absurd hb hlen
            · rw [h3] at hb
              exact absurd (by simp) hb
        · rw [if_neg h3]
          exact ⟨none, _, rfl, by simp, fun _ => rfl⟩

theorem textcolor_merge_unset_or_of_tables (cs1 cs2 : color_spec)
    (h1 : cs1.unset_or_of_tables) (h2 : cs2.unset_or_of_tables) :
    (textcolor_merge cs1 cs2).unset_or_of_tables := by
  obtain ⟨a1, f1, b1⟩ := h1
  obtain ⟨a2, f2, b2⟩ := h2
  unfold textcolor_merge
  dsimp only
  refine ⟨?_, ?_, ?_⟩
  · split_ifs <;> simp_all
  · split_ifs <;> simp_all
  · split_ifs <;> simp_all

theorem textcolor_merge_of_tables (cs1 cs2 : color_spec)
    (h1 : cs1.unset_or_of_tables) (h2 : cs2.of_tables) :
    (textcolor_merge cs1 cs2).of_tables := by
  obtain ⟨a1, f1, b1⟩ := h1
  obtain ⟨a2, f2, b2⟩ := h2
  unfold textcolor_merge
  dsimp only
  refine ⟨?_, ?_, ?_⟩
  · split_ifs <;> simp_all
  · split_ifs <;> simp_all
  · split_ifs <;> simp_all

/-- The loop of `parse_color_spec` always returns; it keeps the fields unset or
from the tables, and a refused part among the tokens makes it fail. -/
theorem parse_color_spec_loop_returns (str : Str) :
    ∀ (tokens : List Str) (cs : color_spec), cs.unset_or_of_tables →
      ∃ r out, parse_color_spec_loop str tokens cs = Res.ret r out ∧
        (∀ cs2, r = some cs2 → cs2.unset_or_of_tables) ∧
        ((∃ tok ∈ tokens, 1 ≤ (trim tok).length ∧ bad_part (trim tok)) → r = none) := by
  intro tokens
  induction tokens with
  | nil =>
    intro cs hcs
    refine ⟨some cs, [], rfl, ?_, ?_⟩
    · intro cs2 h
      injection h with h
      subst h
      exact hcs
    · rintro ⟨tok, hm, _⟩
      exact absurd hm (List.not_mem_nil _)
  | cons tok tokens ih =>
    intro cs hcs
    simp only [parse_color_spec_loop]
    by_cases hlen : (trim tok).length < 1
    · rw [if_pos hlen]
      obtain ⟨r, out, hr, hp, hb⟩ := ih cs hcs
      refine ⟨r, out, hr, hp, ?_⟩
      rintro ⟨tok2, hm, h1, h2⟩
      rcases List.mem_cons.mp hm with e | hm2
      · subst e
        omega
      · exact hb ⟨tok2, hm2, h1, h2⟩
    · rw [if_neg hlen]
      obtain ⟨pr, pout, hpart, hpp, hpb⟩ := parse_color_spec_part_returns (trim tok)
      cases pr with
      | none =>
        refine ⟨none, pout ++ (("technicolor config error: failed to parse color spec [".toList
          ++ str ++ "]\n".toList) ++ []), ?_, by simp, fun _ => rfl⟩
        simp only [Res.bind_eq, Res.pure_eq, hpart, Res.bind, cerr]
      | some t =>
        obtain ⟨r, out, hr, hp, hb⟩ := ih (textcolor_merge t cs)
          (textcolor_merge_unset_or_of_tables t cs (hpp t rfl) hcs)
        refine ⟨r, pout ++ out, ?_, hp, ?_⟩
        · simp only [Res.bind_eq, hpart, Res.bind, hr]
        · rintro ⟨tok2, hm, h1, h2⟩
          rcases List.mem_cons.mp hm with e | hm2
          · subst e
            exact absurd (hpb h2) (by simp)
          · exact hb ⟨tok2, hm2, h1, h2⟩

theorem parse_color_spec_returns (str : Str) :
    ∃ r out, parse_color_spec str = Res.ret r out ∧
      (∀ cs, r = some cs → cs.unset_or_of_tables) ∧
      ((∃ tok ∈ tokenize str [' '], 1 ≤ (trim tok).length ∧ bad_part (trim tok)) → r = none) :=
  parse_color_spec_loop_returns str (tokenize str [' ']) ⟨-1, -1, -1⟩
    ⟨Or.inl rfl, Or.inl rfl, Or.inl rfl⟩

/-- The loop of `parse_line_spec` always returns; the colors it collects have
their fields unset or from the tables, a spec with a refused part makes it
fail, and tokens that are all blank leave the list as it was with nothing
written. -/
theorem parse_line_spec_loop_returns :
    ∀ (tokens : List Str) (color_list : List color_spec),
      (∀ c ∈ color_list, c.unset_or_of_tables) →
      ∃ r out, parse_line_spec_loop tokens color_list = Res.ret r out ∧
        (∀ l, r = some l → ∀ c ∈ l, c.unset_or_of_tables) ∧
        ((∃ t ∈ tokens, ∃ tok ∈ tokenize (trim t) [' '],
            1 ≤ (trim tok).length ∧ bad_part (trim tok)) → r = none) ∧
        ((∀ t ∈ tokens, (trim t).length < 1) → r = some color_list ∧ out = []) := by
  intro tokens
  induction tokens with
  | nil =>
    intro color_list hcl
    refine ⟨some color_list, [], rfl, ?_, ?_, fun _ => ⟨rfl, rfl⟩⟩
    · intro l h
      injection h with h
      subst h
      exact hcl
    · rintro ⟨t, hm, _⟩
      exact absurd hm (List.not_mem_nil _)
  | cons t tokens ih =>
    intro color_list hcl
    simp only [parse_line_spec_loop]
    by_cases hlen : (trim t).length < 1
    · rw [if_pos hlen]
      obtain ⟨r, out, hr, hp, hb, he⟩ := ih color_list hcl
      refine ⟨r, out, hr, hp, ?_, ?_⟩
      · rintro ⟨t2, hm, tok, htok, h1, h2⟩
        rcases List.mem_cons.mp hm with e | hm2
        · subst e
          have hnil : trim t2 = [] := List.length_eq_zero.mp (by omega)
          rw [hnil] at htok
          exact absurd htok (List.not_mem_nil _)
        · exact hb ⟨t2, hm2, tok, htok, h1, h2⟩
      · intro hall
        exact he (fun t2 h2 => hall t2 (List.mem_cons_of_mem _ h2))
    · rw [if_neg hlen]
      obtain ⟨pr, pout, hspec, hpp, hpb⟩ := parse_color_spec_returns (trim t)
      cases pr with
      | none =>
        refine ⟨none, pout ++ [], ?_, by simp, fun _ => rfl, ?_⟩
        · simp only [Res.bind_eq, Res.pure_eq, hspec, Res.bind]
        · intro hall
          exact absurd (hall t (List.mem_cons_self _ _)) hlen
      | some cs =>
        obtain ⟨r, out, hr, hp, hb, _⟩ := ih (color_list ++ [cs]) (by
          intro c hc
          rcases List.mem_append.mp hc with h | h
          · exact hcl c h
          · rw [List.mem_singleton.mp h]
            exact hpp cs rfl)
        refine ⟨r, pout ++ out, ?_, hp, ?_, ?_⟩
        · simp only [Res.bind_eq, hspec, Res.bind, hr]
        · rintro ⟨t2, hm, tok, htok, h1, h2⟩
          rcases List.mem_cons.mp hm with e | hm2
          · subst e
            exact absurd (hpb ⟨tok, htok, h1, h2⟩) (by simp)
          · exact hb ⟨t2, hm2, tok, htok, h1, h2⟩
        · intro hall
          exact absurd (hall t (List.mem_cons_self _ _)) hlen

/-! ## C11, C15, C17, C18: what the code does at the inputs where it departs -/

/-- C11 at the reads `ok\n50%% left` on stdout and `tail` on stderr followed by
the end of both streams: the remainder `tail` is written to stderr as it is,
the remainder `50%% left` is written to stdout as `50% left`, the buffer being
passed to `fprintf` as the format (line 226). -/
theorem main_loop_remainder_as_format :
    main_loop sample_boost fill_default_config
        [(Poll.data "ok\n50%% left".toList, Poll.data "tail".toList),
          (Poll.end_of_data, Poll.end_of_data)] [] [] =
      Run.ret Loop.done
        (ESC :: "[0;37;40mok\n".toList ++ ESC :: "[0m".toList ++ "50% left".toList)
        "tail".toList := by
  decide

/-- C15 at the config line `foo = (fg:purple)`: the unknown value is reported
on `cerr`, and the line is kept: a rule with the pattern `foo` and one color
with no field set is appended. -/
theorem parse_line_spec_unknown_value_kept :
    parse_line_spec sample_boost "foo = (fg:purple)".toList fill_default_config =
      Res.ret { fill_default_config with spec_list := [⟨"foo".toList, [⟨-1, -1, -1⟩]⟩] }
        "technicolor config error: unknown value [purple].\n".toList ∧
    parse_line_spec sample_boost "foo = (zz:purple)".toList fill_default_config =
      Res.ret fill_default_config
        ("technicolor config error: unknown color part [zz]\n".toList ++
          "technicolor config error: failed to parse color spec [zz:purple]\n".toList) := by
  decide

/-- A read that fills `buf` makes the store of line 458 go past its end. -/
theorem read_bytes_available_full_buffer (bytes line_buffer : Str)
    (h : bytes.length = MAX_LINEBUFFER_SIZE) :
    read_bytes_available (Poll.data bytes) line_buffer = Res.undefined := by
  unfold read_bytes_available
  simp [h, MAX_LINEBUFFER_SIZE]

/-- C17 at a read of the three bytes `a`, NUL, `b` and at a read of 32768 bytes:
the first appends `a` alone to the buffer, `buf` being appended as a C string
(line 459); the second stores a NUL at `buf[32768]`, past the end of `buf`
(line 458). -/
theorem read_bytes_available_not_exact :
    read_bytes_available (Poll.data ['a', Char.ofNat 0, 'b']) "x".toList =
      Res.ret (false, "xa".toList) [] ∧
    read_bytes_available (Poll.data (List.replicate 32768 'a')) "x".toList =
      Res.undefined := by
  constructor
  · decide
  · exact read_bytes_available_full_buffer _ _ (List.length_replicate _ _)

/-- C18 at the text `a%%b`: as the capture of the rule `(.*) = (fg:blue)`, as a
line no rule matches and as the remainder at the end of the streams it is
written as `a%b`; a text such as `%s` makes the call undefined. -/
theorem fprintf_text_is_format :
    write_colored_line sample_boost
        { fill_default_config with spec_list := [⟨"(.*)".toList, [⟨-1, 4, -1⟩]⟩] }
        "a%%b".toList File.stdout =
      Res.ret () (ESC :: "[0;34;40ma%b".toList ++ ESC :: "[0m\n".toList) ∧
    write_colored_line sample_boost fill_default_config "a%%b".toList File.stdout =
      Res.ret () (ESC :: "[0;37;40ma%b\n".toList ++ ESC :: "[0m".toList) ∧
    main_loop sample_boost fill_default_config
        [(Poll.data "a%%b".toList, Poll.no_data), (Poll.end_of_data, Poll.end_of_data)] [] [] =
      Run.ret Loop.done "a%b".toList [] ∧
    write_colored_line sample_boost fill_default_config "%s".toList File.stdout =
      Res.undefined := by
  decide

/-! ## C14: value names are matched in lower case only -/

/-- C14, the claim as stated fails: `red` is the color `RED`, the spelling `RED`
is an unknown value, and `fg:RED` parses to a color with no field set. -/
theorem lookup_color_const_upper_case :
    lookup_color_const "red".toList = Res.ret 1 [] ∧
    lookup_color_const "RED".toList =
      Res.ret (-1) "technicolor config error: unknown value [RED].\n".toList ∧
    parse_color_spec_part "fg:RED".toList =
      Res.ret (some ⟨-1, -1, -1⟩) "technicolor config error: unknown value [RED].\n".toList := by
  decide

/-- C14 as amended. Every attribute and color name is found under its
lower-case spelling, and every spelling with an upper-case letter in it is an
unknown value: both lookups report it on `cerr` and return `-1`. -/
theorem lookup_const_lower_case_only :
    (lookup_attr_const "reset".toList = Res.ret RESET [] ∧
      lookup_attr_const "bright".toList = Res.ret BRIGHT [] ∧
      lookup_attr_const "dim".toList = Res.ret DIM [] ∧
      lookup_attr_const "underline".toList = Res.ret UNDERLINE [] ∧
      lookup_attr_const "blink".toList = Res.ret BLINK [] ∧
      lookup_attr_const "reverse".toList = Res.ret REVERSE [] ∧
      lookup_attr_const "hidden".toList = Res.ret HIDDEN []) ∧
    (lookup_color_const "black".toList = Res.ret BLACK [] ∧
      lookup_color_const "red".toList = Res.ret RED [] ∧
      lookup_color_const "green".toList = Res.ret GREEN [] ∧
      lookup_color_const "yellow".toList = Res.ret YELLOW [] ∧
      lookup_color_const "blue".toList = Res.ret BLUE [] ∧
      lookup_color_const "magenta".toList = Res.ret MAGENTA [] ∧
      lookup_color_const "cyan".toList = Res.ret CYAN [] ∧
      lookup_color_const "white".toList = Res.ret WHITE []) ∧
    ∀ x : Str, (∃ c ∈ x, c.isUpper = true) →
      lookup_attr_const x = Res.ret (-1) (unknown_value_message x) ∧
      lookup_color_const x = Res.ret (-1) (unknown_value_message x) := by
  refine ⟨by decide, by decide, ?_⟩
  rintro x ⟨c, hc, hu⟩
  have key : ∀ n : Str, (∀ d ∈ n, d.isUpper = false) → ¬ x = n := by
    intro n hn e
    subst e
    rw [hn c hc] at hu
    exact Bool.false_ne_true hu
  constructor
  · unfold lookup_attr_const
    rw [if_neg (key _ (by decide)), if_neg (key _ (by decide)), if_neg (key _ (by decide)),
      if_neg (key _ (by decide)), if_neg (key _ (by decide)), if_neg (key _ (by decide)),
      if_neg (key _ (by decide))]
    simp only [Res.bind_eq, Res.pure_eq, cerr, Res.bind, unknown_value_message, List.append_nil]
  · unfold lookup_color_const
    rw [if_neg (key _ (by decide)), if_neg (key _ (by decide)), if_neg (key _ (by decide)),
      if_neg (key _ (by decide)), if_neg (key _ (by decide)), if_neg (key _ (by decide)),
      if_neg (key _ (by decide)), if_neg (key _ (by decide))]
    simp only [Res.bind_eq, Res.pure_eq, cerr, Res.bind, unknown_value_message, List.append_nil]

/-! ## C13: the reserved patterns -/

/-- C13. For a config line that splits at `=` into two sides and whose
right-hand side parses to the color specs `cs :: more`: when the pattern is
`<stdout>` the rule list and `stderr_props` stay as they were and `stdout_props`
becomes the merge of `cs` into the previous `stdout_props`; when the pattern is
`<stderr>` the same holds with the two defaults exchanged. -/
theorem parse_line_spec_reserved (boost : Boost) (config : technicolor_config)
    (line l r : Str) (cs : color_spec) (more : List color_spec) (out : Str)
    (hsides : tokenize line ['='] = [l, r])
    (hspecs : parse_line_spec_loop (tokenize (trim r) ['(', ')']) [] =
      Res.ret (some (cs :: more)) out) :
    (trim l = "<stdout>".toList → boost.compiles "<stdout>".toList = true →
      parse_line_spec boost line config =
        Res.ret { stdout_props := textcolor_merge cs config.stdout_props,
                  stderr_props := config.stderr_props,
                  spec_list := config.spec_list } out) ∧
    (trim l = "<stderr>".toList → boost.compiles "<stderr>".toList = true →
      parse_line_spec boost line config =
        Res.ret { stdout_props := config.stdout_props,
                  stderr_props := textcolor_merge cs config.stderr_props,
                  spec_list := config.spec_list } out) := by
  constructor
  · intro hl hc
    unfold parse_line_spec
    simp [hsides, hl, hspecs, Res.bind]
    exact hc
  · intro hl hc
    have hne : ¬ ("<stderr>".toList = "<stdout>".toList) := by decide
    unfold parse_line_spec
    simp [hsides, hl, hspecs, Res.bind, hne]
    exact hc

/-- C13 on the lines `<stdout> = (fg:green attr:bright)(bg:red)` and
`<stderr> = (bg:blue)` read into the default config. -/
theorem parse_line_spec_reserved_witness :
    parse_line_spec sample_boost "<stdout> = (fg:green attr:bright)(bg:red)".toList
        fill_default_config =
      Res.ret { stdout_props := ⟨1, 2, 0⟩, stderr_props := ⟨0, 1, 0⟩, spec_list := [] } [] ∧
    parse_line_spec sample_boost "<stderr> = (bg:blue)".toList fill_default_config =
      Res.ret { stdout_props := ⟨0, 7, 0⟩, stderr_props := ⟨0, 1, 4⟩, spec_list := [] } [] :=
  ⟨((parse_line_spec_reserved sample_boost fill_default_config
      "<stdout> = (fg:green attr:bright)(bg:red)".toList "<stdout> ".toList
      " (fg:green attr:bright)(bg:red)".toList ⟨1, 2, -1⟩ [⟨-1, -1, 1⟩] []
      (by decide) (by decide)).1 (by decide) (by decide)).trans (by decide),
    ((parse_line_spec_reserved sample_boost fill_default_config
      "<stderr> = (bg:blue)".toList "<stderr> ".toList " (bg:blue)".toList ⟨-1, -1, 4⟩ [] []
      (by decide) (by decide)).2 (by decide) (by decide)).trans (by decide)⟩

/-! ## C16: config lines that are refused -/

/-- C16. A config line that `parse_line_spec` refuses leaves the config as it
was.  A line that does not split at `=` into two sides is reported and the
function returns with the rule list and both defaults untouched.  A line that
does split has its pattern handed to `boost::regex` (line 337) and then its
right-hand side read: a line without color specs is reported and the function
returns with the config untouched, and so does a line with a refused part in
one of its specs, also after valid specs.  Whatever the library makes of the
pattern, on a line of one of these kinds the function never returns a config
that differs from the one it was given. -/
theorem parse_line_spec_rejected (boost : Boost) (config : technicolor_config) (line : Str) :
    ((tokenize line ['=']).length ≠ 2 →
      parse_line_spec boost line config = Res.ret config (malformed_line_message line)) ∧
    (∀ l r, tokenize line ['='] = [l, r] → boost.compiles (trim l) = true →
      ((∀ t ∈ tokenize (trim r) ['(', ')'], (trim t).length < 1) →
        parse_line_spec boost line config = Res.ret config (no_color_specs_message line)) ∧
      (has_bad_part (trim r) →
        ∃ out, parse_line_spec boost line config = Res.ret config out)) ∧
    (∀ l r, tokenize line ['='] = [l, r] →
      ((∀ t ∈ tokenize (trim r) ['(', ')'], (trim t).length < 1) ∨ has_bad_part (trim r)) →
      ∀ config2 out, parse_line_spec boost line config = Res.ret config2 out →
        config2 = config) := by
  have hsecond : ∀ l r, tokenize line ['='] = [l, r] → boost.compiles (trim l) = true →
      ((∀ t ∈ tokenize (trim r) ['(', ')'], (trim t).length < 1) →
        parse_line_spec boost line config = Res.ret config (no_color_specs_message line)) ∧
      (has_bad_part (trim r) →
        ∃ out, parse_line_spec boost line config = Res.ret config out) := by
    intro l r hsides hc
    have hlen : ¬ (tokenize line ['=']).length ≠ 2 := by rw [hsides]; simp
    obtain ⟨pr, pout, hloop, _, hb, he⟩ :=
      parse_line_spec_loop_returns (tokenize (trim r) ['(', ')']) [] (by simp)
    constructor
    · intro hall
      obtain ⟨h1, h2⟩ := he hall
      subst h1
      subst h2
      unfold parse_line_spec
      dsimp only
      rw [if_neg hlen]
      simp only [hsides, List.getD_cons_zero, List.getD_cons_succ, hc, Bool.true_eq_false,
        if_false, Res.bind_eq, Res.pure_eq, hloop, Res.bind, cerr, List.length_nil,
        Nat.lt_one_iff, if_true, List.append_nil, List.nil_append, no_color_specs_message]
    · intro hbad
      have h1 := hb hbad
      subst h1
      refine ⟨pout ++ [], ?_⟩
      unfold parse_line_spec
      dsimp only
      rw [if_neg hlen]
      simp only [hsides, List.getD_cons_zero, List.getD_cons_succ, hc, Bool.true_eq_false,
        if_false, Res.bind_eq, Res.pure_eq, hloop, Res.bind]
  refine ⟨?_, hsecond, ?_⟩
  · intro h
    unfold parse_line_spec
    dsimp only
    rw [if_pos h]
    simp only [Res.bind_eq, Res.pure_eq, cerr, Res.bind, List.append_nil, malformed_line_message]
  · intro l r hsides hkind config2 out hret
    have hlen : ¬ (tokenize line ['=']).length ≠ 2 := by rw [hsides]; simp
    cases hc : boost.compiles (trim l) with
    | true =>
      rcases hkind with hall | hbad
      · rw [(hsecond l r hsides hc).1 hall] at hret
        simp only [Res.ret.injEq] at hret
        exact hret.1.symm
      · obtain ⟨o, ho⟩ := (hsecond l r hsides hc).2 hbad
        rw [ho] at hret
        simp only [Res.ret.injEq] at hret
        exact hret.1.symm
    | false =>
      exfalso
      unfold parse_line_spec at hret
      dsimp only at hret
      rw [if_neg hlen] at hret
      simp only [hsides, List.getD_cons_zero, hc, if_true] at hret
      exact Res.noConfusion hret

/-- C16 on four lines read into the default config with the sample library:
`nonsense` has no `=`, `foo = ()` has no color spec, and
`foo = (fg:red)(color:red)` and `<stdout> = (fg:red bogus)` hold a refused part
after a valid one. -/
theorem parse_line_spec_rejected_witness :
    parse_line_spec sample_boost "nonsense".toList fill_default_config =
      Res.ret fill_default_config (malformed_line_message "nonsense".toList) ∧
    parse_line_spec sample_boost "foo = ()".toList fill_default_config =
      Res.ret fill_default_config (no_color_specs_message "foo = ()".toList) ∧
    (∃ out, parse_line_spec sample_boost "foo = (fg:red)(color:red)".toList
      fill_default_config = Res.ret fill_default_config out) ∧
    (∃ out, parse_line_spec sample_boost "<stdout> = (fg:red bogus)".toList
      fill_default_config = Res.ret fill_default_config out) :=
  ⟨(parse_line_spec_rejected sample_boost fill_default_config "nonsense".toList).1 (by decide),
    ((parse_line_spec_rejected sample_boost fill_default_config "foo = ()".toList).2.1
      "foo ".toList " ()".toList (by decide) (by decide)).1 (by decide),
    ((parse_line_spec_rejected sample_boost fill_default_config
      "foo = (fg:red)(color:red)".toList).2.1
      "foo ".toList " (fg:red)(color:red)".toList (by decide) (by decide)).2
      ⟨"color:red".toList, by decide, "color:red".toList, by decide, by decide,
        Or.inr (by decide)⟩,
    ((parse_line_spec_rejected sample_boost fill_default_config
      "<stdout> = (fg:red bogus)".toList).2.1
      "<stdout> ".toList " (fg:red bogus)".toList (by decide) (by decide)).2
      ⟨"fg:red bogus".toList, by decide, "bogus".toList, by decide, by decide,
        Or.inl (by decide)⟩⟩

/-! ## C20: the defaults stay fully set -/

/-- `parse_line_spec` keeps a well-formed config well-formed. -/
theorem parse_line_spec_well_formed (boost : Boost) (line : Str)
    (config config2 : technicolor_config) (out : Str) (hw : config.well_formed)
    (h : parse_line_spec boost line config = Res.ret config2 out) :
    config2.well_formed := by
  unfold parse_line_spec at h
  dsimp only at h
  by_cases hlen : (tokenize line ['=']).length ≠ 2
  · rw [if_pos hlen] at h
    simp only [Res.bind_eq, Res.pure_eq, cerr, Res.bind, Res.ret.injEq] at h
    rw [← h.1]
    exact hw
  · rw [if_neg hlen] at h
    by_cases hc : boost.compiles (trim ((tokenize line ['=']).getD 0 [])) = false
    · rw [if_pos hc] at h
      exact absurd h (by simp)
    · rw [if_neg hc] at h
      obtain ⟨pr, pout, hloop, hp, _, _⟩ :=
        parse_line_spec_loop_returns
          (tokenize (trim ((tokenize line ['=']).getD 1 [])) ['(', ')']) [] (by simp)
      obtain ⟨a, o1, o2, ha, hk, _⟩ := Res.bind_eq_ret _ _ _ _ h
      rw [hloop] at ha
      injection ha with ha1 ha2
      subst ha1
      cases pr with
      | none =>
        simp only [Res.pure_eq, Res.ret.injEq] at hk
        rw [← hk.1]
        exact hw
      | some color_list =>
        dsimp only at hk
        by_cases hcl : color_list.length < 1
        · rw [if_pos hcl] at hk
          simp only [Res.bind_eq, Res.pure_eq, cerr, Res.bind, Res.ret.injEq] at hk
          rw [← hk.1]
          exact hw
        · rw [if_neg hcl] at hk
          have hall := hp color_list rfl
          have hfirst : (color_list.headD ⟨-1, -1, -1⟩).unset_or_of_tables := by
            cases color_list with
            | nil => simp at hcl
            | cons c cl => exact hall c (by simp)
          obtain ⟨hw1, hw2, hw3⟩ := hw
          split_ifs at hk
          · simp only [Res.pure_eq, Res.ret.injEq] at hk
            rw [← hk.1]
            exact ⟨textcolor_merge_of_tables _ _ hfirst hw1, hw2, hw3⟩
          · simp only [Res.pure_eq, Res.ret.injEq] at hk
            rw [← hk.1]
            exact ⟨hw1, textcolor_merge_of_tables _ _ hfirst hw2, hw3⟩
          · simp only [Res.pure_eq, Res.ret.injEq] at hk
            rw [← hk.1]
            refine ⟨hw1, hw2, ?_⟩
            intro spec hspec c hcmem
            rcases List.mem_append.mp hspec with h1 | h1
            · exact hw3 spec h1 c hcmem
            · rw [List.mem_singleton.mp h1] at hcmem
              exact hall c hcmem

/-- `parse_config_file` keeps a well-formed config well-formed. -/
theorem parse_config_file_well_formed (boost : Boost) :
    ∀ (lines : List Str) (config config2 : technicolor_config) (out : Str),
      config.well_formed → parse_config_file boost lines config = Res.ret config2 out →
      config2.well_formed := by
  intro lines
  induction lines with
  | nil =>
    intro config config2 out hw h
    simp only [parse_config_file, Res.pure_eq, Res.ret.injEq] at h
    rw [← h.1]
    exact hw
  | cons line lines ih =>
    intro config config2 out hw h
    simp only [parse_config_file] at h
    split_ifs at h
    · exact ih config config2 out hw h
    · obtain ⟨a, o1, o2, ha, hk, _⟩ := Res.bind_eq_ret _ _ _ _ h
      exact ih a config2 o2 (parse_line_spec_well_formed boost line config a o1 hw ha) hk

/-- With every pattern accepted by `boost::regex`, `parse_line_spec` returns. -/
theorem parse_line_spec_returns (boost : Boost) (hb : ∀ p, boost.compiles p = true)
    (line : Str) (config : technicolor_config) :
    ∃ config2 out, parse_line_spec boost line config = Res.ret config2 out := by
  unfold parse_line_spec
  dsimp only
  obtain ⟨pr, pout, hloop, _, _, _⟩ :=
    parse_line_spec_loop_returns
      (tokenize (trim ((tokenize line ['=']).getD 1 [])) ['(', ')']) [] (by simp)
  by_cases h1 : (tokenize line ['=']).length ≠ 2
  · rw [if_pos h1]
    exact ⟨_, _, rfl⟩
  · rw [if_neg h1]
    have h2 : ¬ (boost.compiles (trim ((tokenize line ['=']).getD 0 [])) = false) := by
      rw [hb]
      simp
    rw [if_neg h2]
    cases pr with
    | none => exact ⟨config, pout ++ [], by simp only [Res.bind_eq, Res.pure_eq, hloop, Res.bind]⟩
    | some color_list =>
      simp only [Res.bind_eq, Res.pure_eq, hloop, Res.bind]
      split_ifs <;> exact ⟨_, _, rfl⟩

/-- With every pattern accepted by `boost::regex`, `parse_config_file` returns. -/
theorem parse_config_file_returns (boost : Boost) (hb : ∀ p, boost.compiles p = true) :
    ∀ (lines : List Str) (config : technicolor_config),
      ∃ config2 out, parse_config_file boost lines config = Res.ret config2 out := by
  intro lines
  induction lines with
  | nil => intro config; exact ⟨config, [], rfl⟩
  | cons line lines ih =>
    intro config
    simp only [parse_config_file]
    split_ifs
    · exact ih config
    · obtain ⟨c2, o1, h1⟩ := parse_line_spec_returns boost hb line config
      obtain ⟨c3, o2, h2⟩ := ih c2
      exact ⟨c3, o1 ++ o2, by simp only [Res.bind_eq, h1, Res.bind, h2]⟩

theorem textcolor_resolve_concrete (d c : color_spec) (hd : d.of_tables)
    (hc : c.unset_or_of_tables) : (textcolor_resolve d c).concrete := by
  obtain ⟨a1, f1, b1⟩ := hd
  obtain ⟨a2, f2, b2⟩ := hc
  have hattr : ∀ a : Int, a ∈ [RESET, BRIGHT, DIM, UNDERLINE, BLINK, REVERSE, HIDDEN] →
      0 ≤ a ∧ a ≤ 8 := by
    intro a ha
    simp only [List.mem_cons, List.mem_singleton, RESET, BRIGHT, DIM, UNDERLINE, BLINK, REVERSE,
      HIDDEN, List.not_mem_nil, or_false] at ha
    omega
  unfold textcolor_resolve
  refine ⟨?_, ?_, ?_⟩
  · dsimp only
    split_ifs with h
    · exact hattr _ a1
    · exact hattr _ (a2.resolve_left h)
  · dsimp only
    split_ifs with h
    · exact f1
    · exact f2.resolve_left h
  · dsimp only
    split_ifs with h
    · exact b1
    · exact b2.resolve_left h

/-- C20. Whatever the config lines, the config that `parse_config_file` makes
of `fill_default_config` has in `stdout_props` and in `stderr_props` an
attribute among the seven attribute constants and colors in `0..7`; so, for
either sink, `textcolor` on the default itself and on every color of every rule
fails no assertion and writes its command.  When `boost::regex` accepts every
pattern, `parse_config_file` does return such a config. -/
theorem parse_config_file_defaults_concrete (boost : Boost) (lines : List Str) :
    (∀ config out, parse_config_file boost lines fill_default_config = Res.ret config out →
      config.stdout_props.of_tables ∧ config.stderr_props.of_tables ∧
      ∀ output_file : File,
        textcolor (config.default_of output_file) (config.default_of output_file) =
          Res.ret () (textcolor_command (config.default_of output_file).attr
            (config.default_of output_file).foreground
            (config.default_of output_file).background) ∧
        ∀ spec ∈ config.spec_list, ∀ color ∈ spec.color_list,
          textcolor (config.default_of output_file) color =
            Res.ret () (textcolor_command
              (textcolor_resolve (config.default_of output_file) color).attr
              (textcolor_resolve (config.default_of output_file) color).foreground
              (textcolor_resolve (config.default_of output_file) color).background)) ∧
    ((∀ p, boost.compiles p = true) →
      ∃ config out, parse_config_file boost lines fill_default_config = Res.ret config out) := by
  constructor
  · intro config out h
    have hfill : fill_default_config.well_formed := by
      refine ⟨by decide, by decide, ?_⟩
      intro spec hspec
      exact absurd hspec (List.not_mem_nil _)
    obtain ⟨h1, h2, h3⟩ :=
      parse_config_file_well_formed boost lines fill_default_config config out hfill h
    refine ⟨h1, h2, ?_⟩
    intro output_file
    have hd : (config.default_of output_file).of_tables := by
      unfold technicolor_config.default_of
      split_ifs
      · exact h2
      · exact h1
    have hpd : (config.default_of output_file).unset_or_of_tables :=
      ⟨Or.inr hd.1, Or.inr hd.2.1, Or.inr hd.2.2⟩
    constructor
    · have hres : textcolor_resolve (config.default_of output_file)
          (config.default_of output_file) = config.default_of output_file := by
        unfold textcolor_resolve
        cases config.default_of output_file with
        | mk a f b => simp
      have := textcolor_concrete _ _ (textcolor_resolve_concrete _ _ hd hpd)
      rw [hres] at this
      exact this
    · intro spec hspec color hcolor
      exact textcolor_concrete _ _ (textcolor_resolve_concrete _ _ hd (h3 spec hspec color hcolor))
  · intro hb
    exact parse_config_file_returns boost hb lines fill_default_config

/-- C20 on a config file with a comment, an empty line, both reserved patterns,
a rule, an unknown value and a malformed line. -/
theorem parse_config_file_defaults_concrete_witness :
    parse_config_file sample_boost
        ["# colors".toList, [], "<stdout> = (fg:green)".toList,
          "ERROR: (.*) = (fg:red attr:bright)".toList, "<stderr> = (bg:purple attr:blink)".toList,
          "nonsense".toList] fill_default_config =
      Res.ret { stdout_props := ⟨0, 2, 0⟩, stderr_props := ⟨4, 1, 0⟩,
                spec_list := [⟨"ERROR: (.*)".toList, [⟨1, 1, -1⟩]⟩] }
        (unknown_value_message "purple".toList ++ malformed_line_message "nonsense".toList) ∧
    (⟨0, 2, 0⟩ : color_spec).of_tables ∧ (⟨4, 1, 0⟩ : color_spec).of_tables ∧
    textcolor ⟨0, 2, 0⟩ ⟨1, 1, -1⟩ = Res.ret () (ESC :: "[1;31;40m".toList) :=
  have h : parse_config_file sample_boost
      ["# colors".toList, [], "<stdout> = (fg:green)".toList,
        "ERROR: (.*) = (fg:red attr:bright)".toList, "<stderr> = (bg:purple attr:blink)".toList,
        "nonsense".toList] fill_default_config =
      Res.ret { stdout_props := ⟨0, 2, 0⟩, stderr_props := ⟨4, 1, 0⟩,
                spec_list := [⟨"ERROR: (.*)".toList, [⟨1, 1, -1⟩]⟩] }
        (unknown_value_message "purple".toList ++ malformed_line_message "nonsense".toList) := by
    decide
  ⟨h, ((parse_config_file_defaults_concrete sample_boost _).1 _ _ h).1,
    ((parse_config_file_defaults_concrete sample_boost _).1 _ _ h).2.1,
    (((parse_config_file_defaults_concrete sample_boost _).1 _ _ h).2.2 File.stdout).2
      ⟨"ERROR: (.*)".toList, [⟨1, 1, -1⟩]⟩ (by decide) ⟨1, 1, -1⟩ (by decide) |>.trans
      (by decide)⟩

/-! ## Lemmas on the loop of main -/

theorem Res.bind_assoc {α β γ : Type} (r : Res α) (f : α → Res β) (g : β → Res γ) :
    (r.bind f).bind g = r.bind (fun a => (f a).bind g) := by
  cases r with
  | ret a o =>
    cases hf : f a with
    | ret b o2 =>
      cases hg : g b <;> simp [Res.bind, hf, hg]
    | abort o2 => simp [Res.bind, hf]
    | undefined => simp [Res.bind, hf]
  | abort o => rfl
  | undefined => rfl

theorem Res.ret_bind_ret {α β : Type} (a : α) (o : Str) (k : α → Res β) (b : β) (o2 : Str)
    (h : k a = Res.ret b o2) : (Res.ret a o).bind k = Res.ret b (o ++ o2) := by
  simp [Res.bind, h]

theorem split_lines_no_newline (l : Str) (h : '\n' ∉ l) : split_lines l = ([], l) := by
  induction l with
  | nil => rfl
  | cons c cs ih =>
    have hc : c ≠ '\n' := fun e => h (by simp [e])
    have hcs : '\n' ∉ cs := fun e => h (by simp [e])
    simp [split_lines, hc, ih hcs]

theorem split_lines_line (l rest : Str) (h : '\n' ∉ l) :
    split_lines (l ++ '\n' :: rest) = (l :: (split_lines rest).1, (split_lines rest).2) := by
  induction l with
  | nil => simp [split_lines]
  | cons c cs ih =>
    have hc : c ≠ '\n' := fun e => h (by simp [e])
    have hcs : '\n' ∉ cs := fun e => h (by simp [e])
    simp [split_lines, hc, ih hcs]

theorem split_lines_snd_no_newline (text : Str) : '\n' ∉ (split_lines text).2 := by
  induction text with
  | nil => simp [split_lines]
  | cons c cs ih =>
    unfold split_lines
    by_cases hc : c = '\n'
    · simp only [hc, if_true]
      exact ih
    · simp only [hc, if_false]
      cases h : (split_lines cs).1 with
      | nil =>
        simp only [List.mem_cons, not_or]
        exact ⟨fun e => hc e.symm, ih⟩
      | cons l ls => exact ih

theorem split_lines_append (a b : Str) :
    split_lines (a ++ b) =
      ((split_lines a).1 ++ (split_lines ((split_lines a).2 ++ b)).1,
        (split_lines ((split_lines a).2 ++ b)).2) := by
  induction a with
  | nil => simp [split_lines]
  | cons c cs ih =>
    by_cases hc : c = '\n'
    · simp only [List.cons_append, split_lines, List.append_eq, hc, if_true, ih]
    · cases h : (split_lines cs).1 with
      | nil =>
        simp only [List.cons_append, split_lines, List.append_eq, hc, if_false, ih, h,
          List.nil_append]
      | cons l ls =>
        simp only [List.cons_append, split_lines, List.append_eq, hc, if_false, ih, h]

theorem exists_first_newline (buffer : Str) (h : '\n' ∈ buffer) :
    ∃ l rest, buffer = l ++ '\n' :: rest ∧ '\n' ∉ l := by
  induction buffer with
  | nil => simp at h
  | cons c cs ih =>
    by_cases hc : c = '\n'
    · exact ⟨[], cs, by simp [hc], by simp⟩
    · have hcs : '\n' ∈ cs := by
        rcases List.mem_cons.mp h with e | e
        · exact absurd e.symm hc
        · exact e
      obtain ⟨l, rest, h1, h2⟩ := ih hcs
      refine ⟨c :: l, rest, by simp [h1], ?_⟩
      simp only [List.mem_cons, not_or]
      exact ⟨fun e => hc e.symm, h2⟩

theorem colorize_lines_append (boost : Boost) (config : technicolor_config)
    (output_file : File) (l1 l2 : List Str) :
    colorize_lines boost config output_file (l1 ++ l2) =
      (colorize_lines boost config output_file l1).bind
        (fun _ => colorize_lines boost config output_file l2) := by
  induction l1 with
  | nil =>
    simp only [List.nil_append, colorize_lines, Res.pure_eq]
    rw [Res.bind_ret_nil]
  | cons l ls ih =>
    simp only [List.cons_append, colorize_lines, Res.bind_eq, List.append_eq, ih]
    rw [Res.bind_assoc]

/-- The `while` statement of lines 220-221 hands the complete lines of the
buffer to `write_colored_line` in order and leaves the chars after the last
newline; a fuel above the length of the buffer is enough for that. -/
theorem flush_all_eq (boost : Boost) (config : technicolor_config) (output_file : File) :
    ∀ (fuel : Nat) (buffer : Str), buffer.length < fuel →
      flush_all boost config fuel buffer output_file =
        (colorize_lines boost config output_file (split_lines buffer).1).bind
          (fun _ => Res.ret (split_lines buffer).2 []) := by
  intro fuel
  induction fuel with
  | zero => intro buffer h; omega
  | succ fuel ih =>
    intro buffer hlen
    by_cases hnl : '\n' ∈ buffer
    · obtain ⟨l, rest, hb, hl⟩ := exists_first_newline buffer hnl
      subst hb
      have hrest : rest.length < fuel := by
        simp only [List.length_append, List.length_cons] at hlen
        omega
      simp only [flush_all, Res.bind_eq, flush_complete_lines_split boost config output_file l rest hl,
        split_lines_line l rest hl, colorize_lines]
      rw [Res.bind_assoc, Res.bind_assoc]
      congr 1
      funext _
      rw [Res.bind_ret_nil]
      simp only [if_true]
      exact ih rest hrest
    · simp only [flush_all, Res.bind_eq, flush_complete_lines_none boost config output_file buffer hnl,
        split_lines_no_newline buffer hnl, colorize_lines, Res.pure_eq]
      rw [Res.bind_ret_nil, Res.bind_ret_nil]
      simp

@[simp] theorem Run.run_pure_eq {α : Type} (a : α) : (pure a : Run α) = Run.ret a [] [] := rfl

@[simp] theorem Run.run_bind_eq {α β : Type} (r : Run α) (k : α → Run β) :
    (r >>= k) = r.bind k := rfl

theorem Run.run_bind_eq_ret {α β : Type} (r : Run α) (k : α → Run β) (b : β) (out err : Str)
    (h : r.bind k = Run.ret b out err) :
    ∃ a o1 e1 o2 e2, r = Run.ret a o1 e1 ∧ k a = Run.ret b o2 e2 ∧
      out = o1 ++ o2 ∧ err = e1 ++ e2 := by
  cases r with
  | ret a o1 e1 =>
    cases hk : k a with
    | ret b2 o2 e2 =>
      simp only [Run.bind, hk, Run.ret.injEq] at h
      exact ⟨a, o1, e1, o2, e2, rfl, by rw [hk, h.1], h.2.1.symm, h.2.2.symm⟩
    | abort o2 e2 => simp [Run.bind, hk] at h
    | undefined => simp [Run.bind, hk] at h
  | abort o1 e1 => simp [Run.bind] at h
  | undefined => simp [Run.bind] at h

theorem Run.of_stdout_eq_ret {α : Type} (r : Res α) (a : α) (out err : Str)
    (h : Run.of File.stdout r = Run.ret a out err) : r = Res.ret a out ∧ err = [] := by
  cases r with
  | ret a2 o =>
    simp only [Run.of, if_neg (by decide : ¬ File.stdout = File.stderr), Run.ret.injEq] at h
    exact ⟨by rw [h.1, h.2.1], h.2.2.symm⟩
  | abort o => simp [Run.of] at h
  | undefined => simp [Run.of] at h

theorem Run.of_stderr_eq_ret {α : Type} (r : Res α) (a : α) (out err : Str)
    (h : Run.of File.stderr r = Run.ret a out err) : r = Res.ret a err ∧ out = [] := by
  cases r with
  | ret a2 o =>
    simp only [Run.of, if_true, Run.ret.injEq] at h
    exact ⟨by rw [h.1, h.2.2], h.2.1.symm⟩
  | abort o => simp [Run.of] at h
  | undefined => simp [Run.of] at h

/-- A read that returns reports whether the data ended and adds its chars. -/
theorem read_bytes_available_eq_ret (p : Poll) (b : Str) (x : Bool × Str) (o : Str)
    (h : read_bytes_available p b = Res.ret x o) :
    x = (p.closes, b ++ p.appended) ∧ o = [] := by
  cases p with
  | no_data =>
    simp only [read_bytes_available, Res.pure_eq, Res.ret.injEq] at h
    simp [Poll.closes, Poll.appended, ← h.1, ← h.2]
  | end_of_data =>
    simp only [read_bytes_available, Res.pure_eq, Res.ret.injEq] at h
    simp [Poll.closes, Poll.appended, ← h.1, ← h.2]
  | data bytes =>
    simp only [read_bytes_available, Res.pure_eq] at h
    split_ifs at h with h1 h2
    · simp only [Res.ret.injEq] at h
      simp [Poll.closes, Poll.appended, h1, ← h.1, ← h.2]
    · simp only [Res.ret.injEq] at h
      simp [Poll.closes, Poll.appended, h1, ← h.1, ← h.2]

theorem flush_all_eq_ret (boost : Boost) (config : technicolor_config) (output_file : File)
    (b sb o : Str)
    (h : flush_all boost config (b.length + 1) b output_file = Res.ret sb o) :
    sb = (split_lines b).2 ∧
      colorize_lines boost config output_file (split_lines b).1 = Res.ret () o := by
  rw [flush_all_eq boost config output_file _ b (Nat.lt_succ_self _)] at h
  obtain ⟨a, o1, o2, ha, hk, ho⟩ := Res.bind_eq_ret _ _ _ _ h
  simp only [Res.ret.injEq] at hk
  refine ⟨hk.1.symm, ?_⟩
  rw [ha, ho, ← hk.2, List.append_nil]

/-- One round of the loop, with the final writes of lines 226-227 put as
`final_flush`. -/
theorem main_loop_cons (boost : Boost) (config : technicolor_config) (p : Poll × Poll)
    (rest : List (Poll × Poll)) (ob eb : Str) :
    main_loop boost config (p :: rest) ob eb =
      (Run.of File.stdout (read_bytes_available p.1 ob)).bind fun r1 =>
      (Run.of File.stderr (read_bytes_available p.2 eb)).bind fun r2 =>
      (Run.of File.stdout (flush_all boost config (r1.2.length + 1) r1.2 File.stdout)).bind
        fun sb =>
      (Run.of File.stderr (flush_all boost config (r2.2.length + 1) r2.2 File.stderr)).bind
        fun sb2 =>
      if r1.1 = true ∧ r2.1 = true then
        (Run.of File.stdout (final_flush Loop.done sb)).bind fun _ =>
          (Run.of File.stderr (final_flush Loop.done sb2)).bind fun _ =>
            Run.ret Loop.done [] []
      else main_loop boost config rest sb sb2 := by
  simp only [main_loop, Run.run_bind_eq, Run.run_pure_eq]
  congr 1; funext r1
  congr 1; funext r2
  congr 1; funext sb
  congr 1; funext sb2
  split_ifs <;> simp_all [final_flush, Run.of, Run.bind]

theorem read_bytes_available_cases (p : Poll) (b : Str) :
    read_bytes_available p b = Res.ret (p.closes, b ++ p.appended) [] ∨
      read_bytes_available p b = Res.undefined := by
  cases p with
  | no_data => left; simp [read_bytes_available, Poll.closes, Poll.appended]
  | end_of_data => left; simp [read_bytes_available, Poll.closes, Poll.appended]
  | data bytes =>
    simp only [read_bytes_available, Res.pure_eq, Poll.closes, Poll.appended]
    split_ifs <;> simp_all

/-- The rounds after the first one in which both reads report the end of the
data are not run. -/
theorem main_loop_rounds_run (boost : Boost) (config : technicolor_config) :
    ∀ (sched : List (Poll × Poll)) (ob eb : Str),
      main_loop boost config sched ob eb = main_loop boost config (rounds_run sched) ob eb := by
  intro sched
  induction sched with
  | nil => intro ob eb; rfl
  | cons p rest ih =>
    intro ob eb
    unfold rounds_run
    split_ifs with hboth
    · rw [main_loop_cons, main_loop_cons]
      rcases read_bytes_available_cases p.1 ob with h1 | h1 <;>
        rcases read_bytes_available_cases p.2 eb with h2 | h2 <;>
        simp [h1, h2, hboth.1, hboth.2, Run.of, Run.bind]
    · rw [main_loop_cons, main_loop_cons]
      congr 1; funext r1
      congr 1; funext r2
      congr 1; funext sb
      congr 1; funext sb2
      rw [ih]

/-- A run of the loop that returns is done exactly when in some round both
reads reported the end of the data. -/
theorem main_loop_done_iff_of_ret (boost : Boost) (config : technicolor_config) :
    ∀ (sched : List (Poll × Poll)) (ob eb : Str) (r : Loop) (out err : Str),
      main_loop boost config sched ob eb = Run.ret r out err →
      (r = Loop.done ↔ ∃ p ∈ sched, p.1.closes = true ∧ p.2.closes = true) := by
  intro sched
  induction sched with
  | nil =>
    intro ob eb r out err h
    simp only [main_loop, Run.run_pure_eq, Run.ret.injEq] at h
    rw [← h.1]
    simp
  | cons p rest ih =>
    intro ob eb r out err h
    rw [main_loop_cons] at h
    obtain ⟨r1, _, _, _, _, h1, h, _, _⟩ := Run.run_bind_eq_ret _ _ _ _ _ h
    obtain ⟨r2, _, _, _, _, h2, h, _, _⟩ := Run.run_bind_eq_ret _ _ _ _ _ h
    obtain ⟨sb, _, _, _, _, _, h, _, _⟩ := Run.run_bind_eq_ret _ _ _ _ _ h
    obtain ⟨sb2, _, _, _, _, _, h, _, _⟩ := Run.run_bind_eq_ret _ _ _ _ _ h
    have e1 := (read_bytes_available_eq_ret _ _ _ _ (Run.of_stdout_eq_ret _ _ _ _ h1).1).1
    have e2 := (read_bytes_available_eq_ret _ _ _ _ (Run.of_stderr_eq_ret _ _ _ _ h2).1).1
    rw [e1, e2] at h
    dsimp only at h
    split_ifs at h with hboth
    · obtain ⟨_, _, _, _, _, _, h, _, _⟩ := Run.run_bind_eq_ret _ _ _ _ _ h
      obtain ⟨_, _, _, _, _, _, h, _, _⟩ := Run.run_bind_eq_ret _ _ _ _ _ h
      simp only [Run.ret.injEq] at h
      rw [← h.1]
      simp only [true_iff]
      exact ⟨p, List.mem_cons_self _ _, hboth⟩
    · rw [ih _ _ r _ _ h]
      constructor
      · rintro ⟨q, hq, hc⟩
        exact ⟨q, List.mem_cons_of_mem _ hq, hc⟩
      · rintro ⟨q, hq, hc⟩
        rcases List.mem_cons.mp hq with e | hq2
        · subst e
          exact absurd hc hboth
        · exact ⟨q, hq2, hc⟩

theorem sink_of_text_append (boost : Boost) (config : technicolor_config) (output_file : File)
    (loop : Loop) (b more o o2 : Str)
    (hcol : colorize_lines boost config output_file (split_lines b).1 = Res.ret () o)
    (hrest : sink_of_text boost config output_file loop ((split_lines b).2 ++ more) =
      Res.ret () o2) :
    sink_of_text boost config output_file loop (b ++ more) = Res.ret () (o ++ o2) := by
  unfold sink_of_text at hrest ⊢
  rw [split_lines_append]
  dsimp only
  rw [colorize_lines_append, Res.bind_assoc, hcol]
  exact Res.ret_bind_ret _ _ _ _ _ hrest

theorem sink_of_text_done (boost : Boost) (config : technicolor_config) (output_file : File)
    (b o o2 : Str)
    (hcol : colorize_lines boost config output_file (split_lines b).1 = Res.ret () o)
    (hfin : final_flush Loop.done (split_lines b).2 = Res.ret () o2) :
    sink_of_text boost config output_file Loop.done b = Res.ret () (o ++ o2) := by
  unfold sink_of_text
  rw [hcol]
  exact Res.ret_bind_ret _ _ _ _ _ hfin

/-- What a run of the loop that returns has written to each sink: the complete
lines of the text that went through the buffer of the sink, colorized in order,
and after them, when the loop is done, the remainder. -/
theorem main_loop_sinks (boost : Boost) (config : technicolor_config) :
    ∀ (sched : List (Poll × Poll)) (ob eb : Str) (r : Loop) (out err : Str),
      '\n' ∉ ob → '\n' ∉ eb →
      main_loop boost config sched ob eb = Run.ret r out err →
      sink_of_text boost config File.stdout r (ob ++ appended_to_stdout sched) = Res.ret () out ∧
      sink_of_text boost config File.stderr r (eb ++ appended_to_stderr sched) =
        Res.ret () err := by
  intro sched
  induction sched with
  | nil =>
    intro ob eb r out err hob heb h
    simp only [main_loop, Run.run_pure_eq, Run.ret.injEq] at h
    obtain ⟨hr, ho, he⟩ := h
    subst hr; subst ho; subst he
    simp [sink_of_text, appended_to_stdout, appended_to_stderr, split_lines_no_newline _ hob,
      split_lines_no_newline _ heb, colorize_lines, final_flush, Res.bind]
  | cons p rest ih =>
    intro ob eb r out err hob heb h
    rw [main_loop_cons] at h
    obtain ⟨r1, o1, e1, oR1, eR1, h1, h, hout1, herr1⟩ := Run.run_bind_eq_ret _ _ _ _ _ h
    obtain ⟨r2, o2, e2, oR2, eR2, h2, h, hout2, herr2⟩ := Run.run_bind_eq_ret _ _ _ _ _ h
    obtain ⟨sb, o3, e3, oR3, eR3, h3, h, hout3, herr3⟩ := Run.run_bind_eq_ret _ _ _ _ _ h
    obtain ⟨sb2, o4, e4, oR4, eR4, h4, h, hout4, herr4⟩ := Run.run_bind_eq_ret _ _ _ _ _ h
    obtain ⟨a1, a1e⟩ := Run.of_stdout_eq_ret _ _ _ _ h1
    obtain ⟨b1, b1o⟩ := read_bytes_available_eq_ret _ _ _ _ a1
    obtain ⟨a2, a2o⟩ := Run.of_stderr_eq_ret _ _ _ _ h2
    obtain ⟨b2, b2e⟩ := read_bytes_available_eq_ret _ _ _ _ a2
    obtain ⟨a3, a3e⟩ := Run.of_stdout_eq_ret _ _ _ _ h3
    obtain ⟨c3, d3⟩ := flush_all_eq_ret _ _ _ _ _ _ a3
    obtain ⟨a4, a4o⟩ := Run.of_stderr_eq_ret _ _ _ _ h4
    obtain ⟨c4, d4⟩ := flush_all_eq_ret _ _ _ _ _ _ a4
    subst b1; subst b2
    dsimp only at c3 d3 c4 d4 h
    have hout : out = o3 ++ oR4 := by
      rw [hout1, hout2, hout3, hout4, b1o, a2o, a4o]
      simp
    have herr : err = e4 ++ eR4 := by
      rw [herr1, herr2, herr3, herr4, a1e, b2e, a3e]
      simp
    split_ifs at h with hboth
    · obtain ⟨_, o5, e5, oR5, eR5, h5, h, hout5, herr5⟩ := Run.run_bind_eq_ret _ _ _ _ _ h
      obtain ⟨_, o6, e6, oR6, eR6, h6, h, hout6, herr6⟩ := Run.run_bind_eq_ret _ _ _ _ _ h
      obtain ⟨a5, a5e⟩ := Run.of_stdout_eq_ret _ _ _ _ h5
      obtain ⟨a6, a6o⟩ := Run.of_stderr_eq_ret _ _ _ _ h6
      simp only [Run.ret.injEq] at h
      obtain ⟨hr, ho, he⟩ := h
      subst hr
      have hout2 : out = o3 ++ o5 := by
        rw [hout, hout5, hout6, a6o, ← ho]
        simp
      have herr2 : err = e4 ++ e6 := by
        rw [herr, herr5, herr6, a5e, ← he]
        simp
      rw [c3] at a5
      rw [c4] at a6
      simp only [appended_to_stdout, appended_to_stderr, if_pos hboth]
      rw [hout2, herr2]
      exact ⟨sink_of_text_done _ _ _ _ _ _ d3 a5, sink_of_text_done _ _ _ _ _ _ d4 a6⟩
    · have hsb : '\n' ∉ sb := by rw [c3]; exact split_lines_snd_no_newline _
      have hsb2 : '\n' ∉ sb2 := by rw [c4]; exact split_lines_snd_no_newline _
      obtain ⟨i1, i2⟩ := ih sb sb2 r oR4 eR4 hsb hsb2 h
      rw [c3] at i1
      rw [c4] at i2
      simp only [appended_to_stdout, appended_to_stderr, if_neg hboth]
      rw [hout, herr, ← List.append_assoc, ← List.append_assoc]
      exact ⟨sink_of_text_append _ _ _ _ _ _ _ _ d3 i1, sink_of_text_append _ _ _ _ _ _ _ _ d4 i2⟩

/-! ## Runs of the loop without fault -/

theorem c_str_plain (bytes : Str) (h : '%' ∉ bytes) : plain_text (c_str bytes) := by
  unfold c_str
  constructor
  · intro hm
    exact h (List.takeWhile_subset _ hm)
  · intro hm
    have := List.mem_takeWhile_imp hm
    simp at this

theorem Poll.appended_plain (p : Poll) (h : p.plain) : plain_text p.appended := by
  cases p with
  | no_data => simp [Poll.appended, plain_text]
  | end_of_data => simp [Poll.appended, plain_text]
  | data bytes =>
    simp only [Poll.appended]
    split_ifs
    · simp [plain_text]
    · exact c_str_plain bytes h.2

theorem plain_text_append (a b : Str) (ha : plain_text a) (hb : plain_text b) :
    plain_text (a ++ b) := by
  constructor
  · intro h
    rcases List.mem_append.mp h with h | h
    · exact ha.1 h
    · exact hb.1 h
  · intro h
    rcases List.mem_append.mp h with h | h
    · exact ha.2 h
    · exact hb.2 h

theorem split_lines_mem (text : Str) (c : Char) :
    ((∃ l ∈ (split_lines text).1, c ∈ l) → c ∈ text) ∧
      (c ∈ (split_lines text).2 → c ∈ text) := by
  induction text with
  | nil => simp [split_lines]
  | cons x xs ih =>
    unfold split_lines
    by_cases hx : x = '\n'
    · simp only [hx, if_true]
      constructor
      · rintro ⟨l, hl, hc⟩
        rcases List.mem_cons.mp hl with e | hl2
        · subst e
          simp at hc
        · exact List.mem_cons_of_mem _ (ih.1 ⟨l, hl2, hc⟩)
      · intro hc
        exact List.mem_cons_of_mem _ (ih.2 hc)
    · simp only [hx, if_false]
      cases h : (split_lines xs).1 with
      | nil =>
        constructor
        · rintro ⟨l, hl, _⟩
          simp at hl
        · intro hc
          rcases List.mem_cons.mp hc with e | hc2
          · simp [e]
          · exact List.mem_cons_of_mem _ (ih.2 hc2)
      | cons l0 ls =>
        rw [h] at ih
        constructor
        · rintro ⟨l, hl, hc⟩
          rcases List.mem_cons.mp hl with e | hl2
          · subst e
            rcases List.mem_cons.mp hc with e2 | hc2
            · simp [e2]
            · exact List.mem_cons_of_mem _ (ih.1 ⟨l0, List.mem_cons_self _ _, hc2⟩)
          · exact List.mem_cons_of_mem _ (ih.1 ⟨l, List.mem_cons_of_mem _ hl2, hc⟩)
        · intro hc
          exact List.mem_cons_of_mem _ (ih.2 hc)

theorem split_lines_plain (text : Str) (h : plain_text text) :
    (∀ l ∈ (split_lines text).1, plain_text l) ∧ plain_text (split_lines text).2 := by
  constructor
  · intro l hl
    exact ⟨fun hc => h.1 ((split_lines_mem text _).1 ⟨l, hl, hc⟩),
      fun hc => h.2 ((split_lines_mem text _).1 ⟨l, hl, hc⟩)⟩
  · exact ⟨fun hc => h.1 ((split_lines_mem text _).2 hc),
      fun hc => h.2 ((split_lines_mem text _).2 hc)⟩

theorem colorize_lines_returns (boost : Boost) (config : technicolor_config)
    (output_file : File)
    (hcol : ∀ line, plain_text line →
      ∃ o, write_colored_line boost config line output_file = Res.ret () o) :
    ∀ lines : List Str, (∀ l ∈ lines, plain_text l) →
      ∃ o, colorize_lines boost config output_file lines = Res.ret () o := by
  intro lines
  induction lines with
  | nil => intro _; exact ⟨[], rfl⟩
  | cons l ls ih =>
    intro h
    obtain ⟨o1, h1⟩ := hcol l (h l (List.mem_cons_self _ _))
    obtain ⟨o2, h2⟩ := ih (fun x hx => h x (List.mem_cons_of_mem _ hx))
    exact ⟨o1 ++ o2, by simp only [colorize_lines, Res.bind_eq, h1, Res.bind, h2]⟩

theorem final_flush_returns (loop : Loop) (b : Str) (h : plain_text b) :
    ∃ o, final_flush loop b = Res.ret () o := by
  unfold final_flush
  split_ifs
  · exact ⟨b, fprintf_plain b h⟩
  · exact ⟨[], rfl⟩

/-- The loop returns over every list of rounds when `write_colored_line`
returns on the lines without `%` and NUL, the reads leave room in `buf` and
bring no `%`. -/
theorem main_loop_returns (boost : Boost) (config : technicolor_config)
    (hcol : ∀ line output_file, plain_text line →
      ∃ o, write_colored_line boost config line output_file = Res.ret () o) :
    ∀ (sched : List (Poll × Poll)) (ob eb : Str),
      plain_text ob → plain_text eb → (∀ p ∈ sched, p.1.plain ∧ p.2.plain) →
      ∃ r out err, main_loop boost config sched ob eb = Run.ret r out err := by
  intro sched
  induction sched with
  | nil => intro ob eb _ _ _; exact ⟨_, _, _, rfl⟩
  | cons p rest ih =>
    intro ob eb hob heb hp
    obtain ⟨hp1, hp2⟩ := hp p (List.mem_cons_self _ _)
    have hr1 : read_bytes_available p.1 ob = Res.ret (p.1.closes, ob ++ p.1.appended) [] := by
      rcases read_bytes_available_cases p.1 ob with h | h
      · exact h
      · cases hq : p.1 with
        | no_data => rw [hq] at h; simp [read_bytes_available] at h
        | end_of_data => rw [hq] at h; simp [read_bytes_available] at h
        | data bytes =>
          rw [hq] at h hp1
          simp only [read_bytes_available, Res.pure_eq] at h
          split_ifs at h with h1 h2
          exact absurd hp1.1 (by omega)
    have hr2 : read_bytes_available p.2 eb = Res.ret (p.2.closes, eb ++ p.2.appended) [] := by
      rcases read_bytes_available_cases p.2 eb with h | h
      · exact h
      · cases hq : p.2 with
        | no_data => rw [hq] at h; simp [read_bytes_available] at h
        | end_of_data => rw [hq] at h; simp [read_bytes_available] at h
        | data bytes =>
          rw [hq] at h hp2
          simp only [read_bytes_available, Res.pure_eq] at h
          split_ifs at h with h1 h2
          exact absurd hp2.1 (by omega)
    have hob1 := plain_text_append _ _ hob (Poll.appended_plain _ hp1)
    have heb1 := plain_text_append _ _ heb (Poll.appended_plain _ hp2)
    obtain ⟨hl1, hrem1⟩ := split_lines_plain _ hob1
    obtain ⟨hl2, hrem2⟩ := split_lines_plain _ heb1
    obtain ⟨o3, hc3⟩ := colorize_lines_returns boost config File.stdout
      (fun l hl => hcol l File.stdout hl) _ hl1
    obtain ⟨e4, hc4⟩ := colorize_lines_returns boost config File.stderr
      (fun l hl => hcol l File.stderr hl) _ hl2
    have hf3 : flush_all boost config ((ob ++ p.1.appended).length + 1) (ob ++ p.1.appended)
        File.stdout = Res.ret (split_lines (ob ++ p.1.appended)).2 (o3 ++ []) := by
      rw [flush_all_eq _ _ _ _ _ (Nat.lt_succ_self _), hc3]
      rfl
    have hf4 : flush_all boost config ((eb ++ p.2.appended).length + 1) (eb ++ p.2.appended)
        File.stderr = Res.ret (split_lines (eb ++ p.2.appended)).2 (e4 ++ []) := by
      rw [flush_all_eq _ _ _ _ _ (Nat.lt_succ_self _), hc4]
      rfl
    obtain ⟨o5, h5⟩ := final_flush_returns Loop.done _ hrem1
    obtain ⟨e6, h6⟩ := final_flush_returns Loop.done _ hrem2
    obtain ⟨r, out, err, hrec⟩ := ih _ _ hrem1 hrem2
      (fun q hq => hp q (List.mem_cons_of_mem _ hq))
    rw [main_loop_cons]
    by_cases hboth : p.1.closes = true ∧ p.2.closes = true
    · simp only [hr1, hr2, hf3, hf4, h5, h6, Run.of, Run.bind, if_true, if_pos hboth,
        if_neg (by decide : ¬ File.stdout = File.stderr)]
      exact ⟨_, _, _, rfl⟩
    · simp only [hr1, hr2, hf3, hf4, hrec, Run.of, Run.bind, if_true, if_neg hboth,
        if_neg (by decide : ¬ File.stdout = File.stderr)]
      exact ⟨_, _, _, rfl⟩

/-- A config without rules whose defaults are set from the tables colorizes
every line without `%` and NUL. -/
theorem write_colored_line_returns_of_no_rules (boost : Boost) (config : technicolor_config)
    (hrules : config.spec_list = []) (hout : config.stdout_props.of_tables)
    (herr : config.stderr_props.of_tables) (line : Str) (output_file : File)
    (h : plain_text line) :
    ∃ o, write_colored_line boost config line output_file = Res.ret () o := by
  have hd : (if output_file = File.stderr then config.stderr_props
      else config.stdout_props).of_tables := by
    split_ifs
    · exact herr
    · exact hout
  have hres := textcolor_resolve_concrete _ _ hd ⟨Or.inr hd.1, Or.inr hd.2.1, Or.inr hd.2.2⟩
  have hself : ∀ d : color_spec, textcolor_resolve d d = d := by
    intro d
    unfold textcolor_resolve
    cases d with
    | mk a f b => simp
  rw [hself] at hres
  exact ⟨_, write_colored_line_no_match_bytes boost config line output_file
    (by rw [hrules]; intro s hs; exact absurd hs (List.not_mem_nil _)) hres h⟩

/-! ## C12: the lines of each stream keep their order -/

/-- C12, the claim as stated fails: with the rule of the config line
`(a)(b) = (fg:red)`, two capture groups and one color, the stdout bytes
`ab\ncd\n` hold the lines `ab` and `cd`, and the loop stops at the assertion of
line 514 on `ab` with nothing written; `cd` is never written. -/
theorem main_loop_abort_cuts_lines :
    parse_line_spec sample_boost "(a)(b) = (fg:red)".toList fill_default_config =
      Res.ret { fill_default_config with spec_list := [⟨"(a)(b)".toList, [⟨-1, 1, -1⟩]⟩] } [] ∧
    split_lines "ab\ncd\n".toList = (["ab".toList, "cd".toList], []) ∧
    main_loop sample_boost
        { fill_default_config with spec_list := [⟨"(a)(b)".toList, [⟨-1, 1, -1⟩]⟩] }
        [(Poll.data "ab\ncd\n".toList, Poll.no_data)] [] [] =
      Run.abort [] [] := by
  decide

/-- C12 as amended. Whatever the reads of the rounds, when the loop (started on
empty buffers) returns, the bytes it has written to stdout are those of
`write_colored_line` on the complete lines of the concatenation of the chars
added to the stdout buffer, in order, followed when the loop is done by the
final write of the remainder; the stderr reads do not enter.  The same holds for
stderr.  And the loop does return when `write_colored_line` returns on the
lines without `%` and NUL and the reads leave room in `buf` and bring no `%`. -/
theorem main_loop_lines_in_order (boost : Boost) (config : technicolor_config)
    (sched : List (Poll × Poll)) :
    (∀ r out err, main_loop boost config sched [] [] = Run.ret r out err →
      (∃ lines_out rest_out,
        colorize_lines boost config File.stdout (split_lines (appended_to_stdout sched)).1 =
          Res.ret () lines_out ∧
        final_flush r (split_lines (appended_to_stdout sched)).2 = Res.ret () rest_out ∧
        out = lines_out ++ rest_out) ∧
      (∃ lines_err rest_err,
        colorize_lines boost config File.stderr (split_lines (appended_to_stderr sched)).1 =
          Res.ret () lines_err ∧
        final_flush r (split_lines (appended_to_stderr sched)).2 = Res.ret () rest_err ∧
        err = lines_err ++ rest_err)) ∧
    ((∀ line output_file, plain_text line →
        ∃ o, write_colored_line boost config line output_file = Res.ret () o) →
      (∀ p ∈ sched, p.1.plain ∧ p.2.plain) →
      ∃ r out err, main_loop boost config sched [] [] = Run.ret r out err) := by
  constructor
  · intro r out err h
    obtain ⟨h1, h2⟩ := main_loop_sinks boost config sched [] [] r out err (by simp) (by simp) h
    simp only [List.nil_append, sink_of_text] at h1 h2
    obtain ⟨_, o1, o2, ha, hb, hc⟩ := Res.bind_eq_ret _ _ _ _ h1
    obtain ⟨_, e1, e2, hd, he, hf⟩ := Res.bind_eq_ret _ _ _ _ h2
    exact ⟨⟨o1, o2, ha, hb, hc⟩, ⟨e1, e2, hd, he, hf⟩⟩
  · intro hcol hp
    exact main_loop_returns boost config hcol sched [] [] (by simp [plain_text])
      (by simp [plain_text]) hp

/-- C12 on three rounds with the default config: stdout brings `ab\ncd` and
then `\nef\n`, stderr brings `x\n` and then `y`, then both end.  The lines of
stdout are `ab`, `cd`, `ef`, written in that order. -/
theorem main_loop_lines_in_order_witness :
    main_loop sample_boost fill_default_config
        [(Poll.data "ab\ncd".toList, Poll.data "x\n".toList),
          (Poll.data "\nef\n".toList, Poll.data "y".toList),
          (Poll.end_of_data, Poll.end_of_data)] [] [] =
      Run.ret Loop.done
        (ESC :: "[0;37;40mab\n".toList ++ ESC :: "[0m".toList ++
          (ESC :: "[0;37;40mcd\n".toList ++ ESC :: "[0m".toList) ++
          (ESC :: "[0;37;40mef\n".toList ++ ESC :: "[0m".toList))
        (ESC :: "[0;31;40mx\n".toList ++ ESC :: "[0m".toList ++ "y".toList) ∧
    split_lines (appended_to_stdout
        [(Poll.data "ab\ncd".toList, Poll.data "x\n".toList),
          (Poll.data "\nef\n".toList, Poll.data "y".toList),
          (Poll.end_of_data, Poll.end_of_data)]) =
      (["ab".toList, "cd".toList, "ef".toList], []) ∧
    ∃ lines_out rest_out,
      colorize_lines sample_boost fill_default_config File.stdout
        (split_lines (appended_to_stdout
          [(Poll.data "ab\ncd".toList, Poll.data "x\n".toList),
            (Poll.data "\nef\n".toList, Poll.data "y".toList),
            (Poll.end_of_data, Poll.end_of_data)])).1 = Res.ret () lines_out ∧
      final_flush Loop.done (split_lines (appended_to_stdout
          [(Poll.data "ab\ncd".toList, Poll.data "x\n".toList),
            (Poll.data "\nef\n".toList, Poll.data "y".toList),
            (Poll.end_of_data, Poll.end_of_data)])).2 = Res.ret () rest_out ∧
      ESC :: "[0;37;40mab\n".toList ++ ESC :: "[0m".toList ++
          (ESC :: "[0;37;40mcd\n".toList ++ ESC :: "[0m".toList) ++
          (ESC :: "[0;37;40mef\n".toList ++ ESC :: "[0m".toList) = lines_out ++ rest_out :=
  have h : main_loop sample_boost fill_default_config
        [(Poll.data "ab\ncd".toList, Poll.data "x\n".toList),
          (Poll.data "\nef\n".toList, Poll.data "y".toList),
          (Poll.end_of_data, Poll.end_of_data)] [] [] =
      Run.ret Loop.done
        (ESC :: "[0;37;40mab\n".toList ++ ESC :: "[0m".toList ++
          (ESC :: "[0;37;40mcd\n".toList ++ ESC :: "[0m".toList) ++
          (ESC :: "[0;37;40mef\n".toList ++ ESC :: "[0m".toList))
        (ESC :: "[0;31;40mx\n".toList ++ ESC :: "[0m".toList ++ "y".toList) := by decide
  ⟨h, by decide, ((main_loop_lines_in_order sample_boost fill_default_config _).1 _ _ _ h).1⟩

/-! ## C19: when the loop is done -/

/-- C19, the claim as stated fails: stdout reports the end of its data in the
first round and stderr in the second, so both have reported it by the end of
the second round, and the loop is still running. -/
theorem main_loop_closed_not_latched :
    main_loop sample_boost fill_default_config
        [(Poll.end_of_data, Poll.no_data), (Poll.no_data, Poll.end_of_data)] [] [] =
      Run.ret (Loop.running [] []) [] [] := by
  decide

/-- C19 as amended. The closed flags of a round are those of its own two reads:
a run of the loop that returns is done exactly when in some round both reads
reported the end of the data, the rounds after the first such round are not
run, and the loop does return when `write_colored_line` returns on the lines
without `%` and NUL and the buffers and reads are without fault. -/
theorem main_loop_done_iff (boost : Boost) (config : technicolor_config)
    (sched : List (Poll × Poll)) (ob eb : Str) :
    main_loop boost config sched ob eb = main_loop boost config (rounds_run sched) ob eb ∧
    (∀ r out err, main_loop boost config sched ob eb = Run.ret r out err →
      (r = Loop.done ↔ ∃ p ∈ sched, p.1.closes = true ∧ p.2.closes = true)) ∧
    ((∀ line output_file, plain_text line →
        ∃ o, write_colored_line boost config line output_file = Res.ret () o) →
      plain_text ob → plain_text eb → (∀ p ∈ sched, p.1.plain ∧ p.2.plain) →
      ∃ r out err, main_loop boost config sched ob eb = Run.ret r out err) :=
  ⟨main_loop_rounds_run boost config sched ob eb,
    fun r out err h => main_loop_done_iff_of_ret boost config sched ob eb r out err h,
    fun hcol hob heb hp => main_loop_returns boost config hcol sched ob eb hob heb hp⟩

/-- C19 as amended, on four rounds: stdout ends in the first, stderr in the
second, both in the third, and the fourth would bring data.  The loop is done
after the third round and the fourth is not run. -/
theorem main_loop_done_iff_witness :
    main_loop sample_boost fill_default_config
        [(Poll.end_of_data, Poll.no_data), (Poll.no_data, Poll.end_of_data),
          (Poll.end_of_data, Poll.end_of_data), (Poll.data "late\n".toList, Poll.no_data)]
        [] [] =
      Run.ret Loop.done [] [] :=
  ((main_loop_done_iff sample_boost fill_default_config
      [(Poll.end_of_data, Poll.no_data), (Poll.no_data, Poll.end_of_data),
        (Poll.end_of_data, Poll.end_of_data), (Poll.data "late\n".toList, Poll.no_data)]
      [] []).1).trans (by decide)

/-! ## C21: framing loses and invents nothing -/

theorem split_lines_join (text : Str) :
    (split_lines text).1.foldr (fun l acc => l ++ '\n' :: acc) (split_lines text).2 = text := by
  induction text with
  | nil => rfl
  | cons c cs ih =>
    unfold split_lines
    by_cases hc : c = '\n'
    · simp only [hc, if_true, List.foldr_cons, List.nil_append]
      rw [ih]
    · simp only [hc, if_false]
      cases h : (split_lines cs).1 with
      | nil =>
        rw [h] at ih
        simp only [List.foldr_nil] at ih ⊢
        rw [ih]
      | cons l ls =>
        rw [h] at ih
        simp only [List.foldr_cons, List.cons_append] at ih ⊢
        rw [ih]

theorem split_lines_fst_no_newline (text : Str) : ∀ l ∈ (split_lines text).1, '\n' ∉ l := by
  induction text with
  | nil => simp [split_lines]
  | cons c cs ih =>
    unfold split_lines
    by_cases hc : c = '\n'
    · simp only [hc, if_true]
      intro l hl
      rcases List.mem_cons.mp hl with e | hl2
      · subst e
        simp
      · exact ih l hl2
    · simp only [hc, if_false]
      cases h : (split_lines cs).1 with
      | nil =>
        intro l hl
        simp at hl
      | cons l0 ls =>
        rw [h] at ih
        intro l hl
        rcases List.mem_cons.mp hl with e | hl2
        · subst e
          simp only [List.mem_cons, not_or]
          exact ⟨fun e2 => hc e2.symm, ih l0 (List.mem_cons_self _ _)⟩
        · exact ih l (List.mem_cons_of_mem _ hl2)

theorem split_lines_length (text : Str) : (split_lines text).1.length = text.count '\n' := by
  induction text with
  | nil => rfl
  | cons c cs ih =>
    unfold split_lines
    by_cases hc : c = '\n'
    · simp only [hc, if_true, List.length_cons, List.count_cons_self]
      rw [ih]
    · have hcount : (c :: cs).count '\n' = cs.count '\n' :=
        List.count_cons_of_ne (fun e => hc e.symm) cs
      simp only [hc, if_false]
      rw [hcount, ← ih]
      cases h : (split_lines cs).1 with
      | nil => rfl
      | cons l ls => rfl

/-- The lines are colorized to the end exactly when `write_colored_line`
returns on each of them. -/
theorem colorize_lines_ret_iff (boost : Boost) (config : technicolor_config)
    (output_file : File) (lines : List Str) :
    (∃ out, colorize_lines boost config output_file lines = Res.ret () out) ↔
      ∀ l ∈ lines, ∃ o, write_colored_line boost config l output_file = Res.ret () o := by
  induction lines with
  | nil => simp [colorize_lines]
  | cons l ls ih =>
    constructor
    · rintro ⟨out, h⟩
      simp only [colorize_lines, Res.bind_eq] at h
      obtain ⟨_, o1, o2, h1, h2, _⟩ := Res.bind_eq_ret _ _ _ _ h
      intro x hx
      rcases List.mem_cons.mp hx with e | e
      · subst e
        exact ⟨o1, h1⟩
      · exact ih.mp ⟨o2, h2⟩ x e
    · intro h
      obtain ⟨o1, h1⟩ := h l (List.mem_cons_self _ _)
      obtain ⟨o2, h2⟩ := ih.mpr (fun x hx => h x (List.mem_cons_of_mem _ hx))
      exact ⟨o1 ++ o2, by simp only [colorize_lines, Res.bind_eq, h1, Res.bind, h2]⟩

/-- C21, the claim as stated fails: the buffer `ab\ncd\nef` holds two newlines
and the lines `ab` and `cd`, and with the rule of the config line
`(a)(b) = (fg:red)`, two capture groups and one color, the statement
`while (flush_complete_lines(config, buffer, output_file)) {;}` never comes to
a call that returns `false`: the first line handed over, `ab`, stops at the
assertion of line 514, and `cd` is not handed over. -/
theorem flush_all_stops_at_assert :
    List.count '\n' "ab\ncd\nef".toList = 2 ∧
    split_lines "ab\ncd\nef".toList = (["ab".toList, "cd".toList], "ef".toList) ∧
    flush_all sample_boost
        { fill_default_config with spec_list := [⟨"(a)(b)".toList, [⟨-1, 1, -1⟩]⟩] }
        ("ab\ncd\nef".toList.length + 1) "ab\ncd\nef".toList File.stdout = Res.abort [] := by
  decide

/-- C21 as amended. For every buffer `b` the outcome of the statement
`while (flush_complete_lines(config, buffer, output_file)) {;}` is settled
within `b.length + 1` calls (every fuel above the length of `b` gives the same
outcome).  Let `l1 .. lk` be the complete lines of `b` and `r` the chars after
its last newline: `l1 ++ "\n" ++ .. ++ lk ++ "\n" ++ r` is `b`, no line holds a
newline, `r` holds no newline and `k` is the number of newlines of `b`.  When
`write_colored_line` returns on each of `l1 .. lk` the statement returns, having
handed exactly `l1 .. lk` to `write_colored_line` in this order, and leaves the
buffer `r`, on which the next call returns `false`; and it returns in no other
way. -/
theorem flush_all_framing (boost : Boost) (config : technicolor_config)
    (output_file : File) (b : Str) :
    (∀ fuel, b.length < fuel →
      flush_all boost config fuel b output_file =
        flush_all boost config (b.length + 1) b output_file) ∧
    (∀ fuel, b.length < fuel →
      (∀ out, colorize_lines boost config output_file (split_lines b).1 = Res.ret () out →
        flush_all boost config fuel b output_file = Res.ret (split_lines b).2 out) ∧
      (∀ r out, flush_all boost config fuel b output_file = Res.ret r out →
        r = (split_lines b).2 ∧
          colorize_lines boost config output_file (split_lines b).1 = Res.ret () out)) ∧
    ((∃ out, colorize_lines boost config output_file (split_lines b).1 = Res.ret () out) ↔
      ∀ l ∈ (split_lines b).1,
        ∃ o, write_colored_line boost config l output_file = Res.ret () o) ∧
    flush_complete_lines boost config (split_lines b).2 output_file =
      Res.ret (false, (split_lines b).2) [] ∧
    (split_lines b).1.foldr (fun l acc => l ++ '\n' :: acc) (split_lines b).2 = b ∧
    (∀ l ∈ (split_lines b).1, '\n' ∉ l) ∧
    '\n' ∉ (split_lines b).2 ∧
    (split_lines b).1.length = b.count '\n' := by
  refine ⟨?_, ?_, colorize_lines_ret_iff boost config output_file _,
    flush_complete_lines_none boost config output_file _ (split_lines_snd_no_newline b),
    split_lines_join b, split_lines_fst_no_newline b, split_lines_snd_no_newline b,
    split_lines_length b⟩
  · intro fuel h
    rw [flush_all_eq boost config output_file fuel b h,
      flush_all_eq boost config output_file (b.length + 1) b (Nat.lt_succ_self _)]
  · intro fuel h
    constructor
    · intro out hout
      rw [flush_all_eq boost config output_file fuel b h, hout]
      simp [Res.bind]
    · intro r out hret
      rw [flush_all_eq boost config output_file fuel b h] at hret
      obtain ⟨u, o1, o2, hu, hk, ho⟩ := Res.bind_eq_ret _ _ _ _ hret
      simp only [Res.ret.injEq] at hk
      refine ⟨hk.1.symm, ?_⟩
      rw [hu, ho, ← hk.2, List.append_nil]

/-- C21 on the buffer `ab\n\ncd\nef` with the default config: the lines handed
over are `ab`, the empty line and `cd`, the buffer left is `ef`, and the buffer
has three newlines. -/
theorem flush_all_framing_witness :
    split_lines "ab\n\ncd\nef".toList = (["ab".toList, [], "cd".toList], "ef".toList) ∧
    "ab".toList ++ '\n' :: ([] ++ '\n' :: ("cd".toList ++ '\n' :: "ef".toList)) =
      "ab\n\ncd\nef".toList ∧
    List.count '\n' "ab\n\ncd\nef".toList = 3 ∧
    flush_all sample_boost fill_default_config ("ab\n\ncd\nef".toList.length + 1)
        "ab\n\ncd\nef".toList File.stdout =
      Res.ret "ef".toList
        (ESC :: "[0;37;40mab\n".toList ++ ESC :: "[0m".toList ++
          (ESC :: "[0;37;40m\n".toList ++ ESC :: "[0m".toList) ++
          (ESC :: "[0;37;40mcd\n".toList ++ ESC :: "[0m".toList)) :=
  ⟨by decide, by decide, by decide,
    ((flush_all_framing sample_boost fill_default_config File.stdout
      "ab\n\ncd\nef".toList).2.1 _ (Nat.lt_succ_self _)).1 _ (by decide)⟩

end Technicolor
